import Mathlib

/-!
# Verification of the 2048-variant game core, particle engine and sound dispatcher

Shallow embedding of the repository's JavaScript sources:

* `js/game_manager.js`   — move/merge engine, undo, exchange state machine
* `unnamed/part_000`     — SpaceEffects particle engine (the copy with the
                           MAX_PARTICLES cap; `js/space-effects.js` is an
                           uncapped variant with the identical `getTier`)
* `js/sound_manager.js`  — sound dispatcher with the win/gameover one-shot latch

The `Grid` and `Tile` classes themselves are not in the sources (only their
call sites in `game_manager.js` are); the definitions below that embed them
carry a doc comment starting with "Modelled from the spec:".

Conventions: JavaScript numbers that are only ever non-negative integers
become `Nat`; grid coordinates that can step outside the board during
`findFarthest` are `Int`.  Randomness (`Math.random`) is passed in as
explicit oracle arguments.  DOM / Web-Audio side effects are recorded in an
explicit effect list instead of being performed.
-/

namespace Game2048

/-- An (x, y) board coordinate, possibly outside the board. -/
structure Pos where
  x : Int
  y : Int
deriving DecidableEq, Repr

/-- A direction unit vector as produced by `GameManager.prototype.getVector`. -/
structure Vec where
  x : Int
  y : Int
deriving DecidableEq, Repr

/-- Modelled from the spec: a Tile carries value, position, previousPosition,
mergedFrom provenance and the justSpawned flag (spec §3 "Tile").  The source
`Tile` class is absent from `src/`; `mergedFrom` holds the two consumed tiles
in the source and is used only to drive the ghost-slide animation, so it is
embedded as the pair of consumed values (`none` = null). -/
structure Tile where
  x : Int
  y : Int
  value : Nat
  previousPosition : Option Pos
  mergedFrom : Option (Nat × Nat)
  justSpawned : Bool
deriving DecidableEq, Repr

/-- Modelled from the spec: `new Tile(position, value)` — previousPosition and
mergedFrom start null, justSpawned unset (falsy). -/
def newTile (p : Pos) (v : Nat) : Tile :=
  { x := p.x, y := p.y, value := v,
    previousPosition := none, mergedFrom := none, justSpawned := false }

/-- Modelled from the spec: the Grid is an N×N array of Tile-or-empty
(spec §3 "Grid").  Cells are total functions out of `Nat` coordinates; the
code only ever reads or writes in-bounds cells. -/
structure Grid where
  size : Nat
  cells : Nat → Nat → Option Tile

theorem Grid.ext {g h : Grid} (hs : g.size = h.size)
    (hc : ∀ i j, g.cells i j = h.cells i j) : g = h := by
  cases g; cases h
  simp only [Grid.mk.injEq]
  exact ⟨hs, funext fun i => funext fun j => hc i j⟩

/-- Modelled from the spec: `new Grid(size)` builds an empty size×size board. -/
def emptyGrid (n : Nat) : Grid := { size := n, cells := fun _ _ => none }

/-- Modelled from the spec: `Grid.prototype.withinBounds` —
`0 ≤ x < size ∧ 0 ≤ y < size`. -/
def Grid.withinBounds (g : Grid) (p : Pos) : Bool :=
  decide (0 ≤ p.x) && decide (p.x < g.size) && decide (0 ≤ p.y) && decide (p.y < g.size)

/-- Modelled from the spec: `Grid.prototype.cellContent` — the tile at an
in-bounds cell, null otherwise. -/
def Grid.cellContent (g : Grid) (p : Pos) : Option Tile :=
  if g.withinBounds p then g.cells p.x.toNat p.y.toNat else none

/-- Modelled from the spec: `cellOccupied` = `!!cellContent`. -/
def Grid.cellOccupied (g : Grid) (p : Pos) : Bool := (g.cellContent p).isSome

/-- Modelled from the spec: `cellAvailable` = `!cellOccupied`. -/
def Grid.cellAvailable (g : Grid) (p : Pos) : Bool := !(g.cellOccupied p)

/-- Write one cell of the grid (the raw `grid.cells[x][y] = v` assignment;
the code only performs it at in-bounds positions). -/
def Grid.set (g : Grid) (p : Pos) (v : Option Tile) : Grid :=
  { g with cells := fun i j =>
      if i = p.x.toNat ∧ j = p.y.toNat then v else g.cells i j }

/-- Modelled from the spec: `Grid.prototype.availableCells` — the empty cells
collected column-major (x outer, y inner), as in the source's eachCell order. -/
def Grid.availableCells (g : Grid) : List Pos :=
  (List.range g.size).flatMap fun x =>
    (List.range g.size).filterMap fun y =>
      if (g.cells x y).isNone then some ⟨x, y⟩ else none

/-- Modelled from the spec: `Grid.prototype.cellsAvailable` —
`availableCells().length > 0`. -/
def Grid.cellsAvailable (g : Grid) : Bool := !g.availableCells.isEmpty

/-- Modelled from the spec: `Grid.prototype.insertTile` —
`cells[tile.x][tile.y] = tile`. -/
def Grid.insertTile (g : Grid) (t : Tile) : Grid :=
  g.set ⟨t.x, t.y⟩ (some t)

/-- Modelled from the spec: `Grid.prototype.removeTile` —
`cells[tile.x][tile.y] = null`. -/
def Grid.removeTile (g : Grid) (t : Tile) : Grid :=
  g.set ⟨t.x, t.y⟩ none

/-- The grid data-model invariant (spec §3): every tile reachable via
`grid[x][y]` records position (x, y).  "At most one tile per cell" is forced
by the array representation itself, here as in the JavaScript. -/
def Grid.posConsistent (g : Grid) : Bool :=
  (List.range g.size).all fun i =>
    (List.range g.size).all fun j =>
      match g.cells i j with
      | none => true
      | some t => t.x == (i : Int) && t.y == (j : Int)

/-! ## Effects

Sounds, renders and the terminal-latch reset are recorded instead of being
performed (`html_actuator.js`, `sound_manager.js` and the DOM are external). -/

/-- One observable side effect requested by the game core. -/
inductive Effect where
  | sound (name : String)
  | stopPowerUp
  | actuate
  | resetTerminal
deriving DecidableEq, Repr

/-! ## Move engine (`game_manager.js` lines 78–145 and helpers) -/

/-- `GameManager.prototype.getVector`: 0 = up, 1 = right, 2 = down, 3 = left.
The source map has no entry beyond 3; callers only pass 0–3. -/
def getVector (dir : Nat) : Vec :=
  match dir with
  | 0 => ⟨0, -1⟩
  | 1 => ⟨1, 0⟩
  | 2 => ⟨0, 1⟩
  | _ => ⟨-1, 0⟩

/-- `GameManager.prototype.buildTraversals`: both axes 0..size-1, reversed on
an axis whose vector component is +1. -/
def buildTraversals (n : Nat) (vec : Vec) : List Nat × List Nat :=
  let t := List.range n
  (if vec.x = 1 then t.reverse else t, if vec.y = 1 then t.reverse else t)

/-- The cell visit order of the nested `trav.x.forEach / trav.y.forEach`. -/
def traversalCells (n : Nat) (vec : Vec) : List Pos :=
  let t := buildTraversals n vec
  t.1.flatMap fun (x : Nat) => t.2.map fun (y : Nat) => ⟨(x : Int), (y : Int)⟩

/-- The do-while loop body of `GameManager.prototype.findFarthest`, with
explicit fuel (the walk leaves the board after at most `size` steps).
Returns (farthest, next). -/
def findFarthestAux (g : Grid) (vec : Vec) : Nat → Pos → Pos × Pos
  | 0, prev => (prev, ⟨prev.x + vec.x, prev.y + vec.y⟩)
  | fuel + 1, prev =>
      let cell : Pos := ⟨prev.x + vec.x, prev.y + vec.y⟩
      if g.withinBounds cell ∧ g.cellAvailable cell then
        findFarthestAux g vec fuel cell
      else
        (prev, cell)

/-- `GameManager.prototype.findFarthest`: slide from `cell` along `vec` until
a wall or an occupied cell. -/
def findFarthest (g : Grid) (cell : Pos) (vec : Vec) : Pos × Pos :=
  findFarthestAux g vec (g.size + 1) cell

/-- `GameManager.prototype.prepareGrid`: clear merge info and snapshot each
tile's position before a move (`tile.savePosition()`). -/
def prepareGrid (g : Grid) : Grid :=
  { g with cells := fun i j =>
      (g.cells i j).map fun t =>
        { t with mergedFrom := none, previousPosition := some ⟨t.x, t.y⟩ } }

/-- A record of one merge performed during a move: the moving tile, the target
tile it merged into, and the freshly created product tile. -/
structure MergeRec where
  moving : Tile
  target : Tile
  product : Tile
deriving DecidableEq, Repr

/-- The mutable locals of `GameManager.prototype.move` while the traversal
runs, plus the effect and merge logs. -/
structure MoveState where
  grid : Grid
  score : Nat
  bestScore : Nat
  moved : Bool
  won : Bool
  merges : List MergeRec
  effects : List Effect

/-- `GameManager.prototype.posEqual`. -/
def posEqual (a : Pos) (b : Pos) : Bool := a.x == b.x && a.y == b.y

/-- `GameManager.prototype.moveTile` followed by the `posEqual` check:
`cells[tile.x][tile.y] = null; cells[farthest.x][farthest.y] = tile;`
`tile.updatePosition(farthest)`. -/
def slideTile (st : MoveState) (cell : Pos) (tile : Tile) (farthest : Pos) :
    MoveState :=
  let g1 := st.grid.set ⟨tile.x, tile.y⟩ none
  let tile1 := { tile with x := farthest.x, y := farthest.y }
  let g2 := g1.set farthest (some tile1)
  { st with grid := g2,
            moved := st.moved || !(posEqual cell ⟨tile1.x, tile1.y⟩) }

/-- The merge branch of the traversal body (lines 99–117): create the doubled
tile at `next`, drop both sources, bump score/best, flag the win. -/
def mergeTile (st : MoveState) (cell : Pos) (tile : Tile) (next : Pos)
    (nextTile : Tile) : MoveState :=
  let merged : Tile :=
    { newTile next (tile.value * 2) with
        mergedFrom := some (tile.value, nextTile.value) }
  let g1 := st.grid.insertTile merged
  let g2 := g1.removeTile tile
  let tile1 := { tile with x := next.x, y := next.y }
  let score1 := st.score + merged.value
  let best1 := if score1 > st.bestScore then score1 else st.bestScore
  let won1 := if merged.value = 2048 then true else st.won
  let winFx := if merged.value = 2048 then [Effect.sound "win"] else []
  { grid := g2, score := score1, bestScore := best1,
    moved := st.moved || !(posEqual cell ⟨tile1.x, tile1.y⟩),
    won := won1,
    merges := st.merges ++ [⟨tile, nextTile, merged⟩],
    effects := st.effects ++ [Effect.sound "merge"] ++ winFx }

/-- The body of the nested traversal loop in `GameManager.prototype.move`
(lines 89–124): slide or merge the tile at `cell`. -/
def moveStep (vec : Vec) (st : MoveState) (cell : Pos) : MoveState :=
  match st.grid.cellContent cell with
  | none => st
  | some tile =>
    let positions := findFarthest st.grid cell vec
    let farthest := positions.1
    let next := positions.2
    match st.grid.cellContent next with
    | some nextTile =>
      if nextTile.value = tile.value ∧ nextTile.mergedFrom = none then
        mergeTile st cell tile next nextTile
      else
        slideTile st cell tile farthest
    | none =>
        slideTile st cell tile farthest

/-! ## Game state machine (`game_manager.js`) -/

/-- `GameManager.prototype._snapshotState` (lines 230–240): per-cell tile
values, score and terminal flags. -/
structure Snapshot where
  cells : Nat → Nat → Option Nat
  score : Nat
  over : Bool
  won : Bool

/-- The `GameManager` fields touched by the embedded operations. -/
structure GameState where
  size : Nat
  grid : Grid
  over : Bool
  won : Bool
  keepPlaying : Bool
  score : Nat
  bestScore : Nat
  undoStack : List Snapshot
  undosUsed : Nat
  exchangesUsed : Nat
  exchangeMode : Bool
  exchangeFirst : Option Pos
  exchangeSecond : Option Pos
  exchangePending : Bool

/-- `GameManager.prototype.isTerminated`:
`over || (won && !keepPlaying)`. -/
def isTerminated (s : GameState) : Bool :=
  s.over || (s.won && !s.keepPlaying)

/-- `_snapshotState` as a function of the state. -/
def snapshotState (s : GameState) : Snapshot :=
  { cells := fun x y =>
      if x < s.size ∧ y < s.size then (s.grid.cells x y).map (·.value) else none,
    score := s.score, over := s.over, won := s.won }

/-- `GameManager.prototype.spawnTile` (lines 66–73) with the two
`Math.random()` draws passed in: `pick` chooses the available cell
(`randomAvailableCell` indexes a random element) and `isTwo` is the 90%
branch.  Returns the new grid, the spawn record, and the sound effects. -/
def spawnTile (g : Grid) (pick : Nat) (isTwo : Bool) :
    Grid × Option (Pos × Nat) × List Effect :=
  let avail := g.availableCells
  if h : avail.isEmpty then (g, none, [])
  else
    let value := if isTwo then 2 else 4
    let p := avail.get ⟨pick % avail.length, by
      have : avail ≠ [] := by
        intro he
        rw [he] at h
        simp at h
      exact Nat.mod_lt _ (List.length_pos.mpr this)⟩
    let tile := { newTile p value with justSpawned := true }
    (g.insertTile tile, some (p, value), [Effect.sound "spawn"])

/-- `GameManager.prototype.matchesAvailable` (lines 358–372): any two
adjacent equal tiles. -/
def matchesAvailable (g : Grid) : Bool :=
  (List.range g.size).any fun x =>
    (List.range g.size).any fun y =>
      match g.cellContent ⟨x, y⟩ with
      | none => false
      | some tile =>
        (List.range 4).any fun d =>
          let vec := getVector d
          match g.cellContent ⟨(x : Int) + vec.x, (y : Int) + vec.y⟩ with
          | some other => other.value == tile.value
          | none => false

/-- `GameManager.prototype.movesAvailable`. -/
def movesAvailable (g : Grid) : Bool :=
  g.cellsAvailable || matchesAvailable g

/-- The result of a `move` call: the new state, the observable effects in
order, and the `moved` flag together with the merge log and spawn record. -/
structure MoveResult where
  state : GameState
  effects : List Effect
  moved : Bool
  merges : List MergeRec
  spawned : Option (Pos × Nat)

/-- `GameManager.prototype.move` (lines 78–145).  `pick`/`isTwo` are the
random draws consumed by the spawn on a successful move. -/
def move (s : GameState) (direction : Nat) (pick : Nat) (isTwo : Bool) :
    MoveResult :=
  if isTerminated s then ⟨s, [], false, [], none⟩
  else
    let stateBeforeMove := snapshotState s
    let vec := getVector direction
    let trav := traversalCells s.size vec
    let st0 : MoveState :=
      ⟨prepareGrid s.grid, s.score, s.bestScore, false, s.won, [], []⟩
    let st := trav.foldl (moveStep vec) st0
    if st.moved then
      let exchangeMode1 := if s.exchangeMode then false else s.exchangeMode
      let exchangeFirst1 := if s.exchangeMode then none else s.exchangeFirst
      let stack1 :=
        if s.undosUsed < 2 then
          let pushed := s.undoStack ++ [stateBeforeMove]
          if pushed.length > 2 then pushed.drop 1 else pushed
        else s.undoStack
      let sp := spawnTile st.grid pick isTwo
      let over1 := !movesAvailable sp.1
      let overFx := if over1 then [Effect.sound "gameover"] else []
      { state :=
          { s with grid := sp.1, score := st.score, bestScore := st.bestScore,
                   won := st.won, over := over1,
                   undoStack := stack1,
                   exchangeMode := exchangeMode1,
                   exchangeFirst := exchangeFirst1 },
        effects := st.effects ++ [Effect.sound "move"] ++ sp.2.2 ++ overFx
                     ++ [Effect.actuate],
        moved := true, merges := st.merges, spawned := sp.2.1 }
    else
      { state := { s with grid := st.grid, score := st.score,
                          bestScore := st.bestScore, won := st.won },
        effects := [], moved := false, merges := st.merges, spawned := none }

/-! ## Undo (`game_manager.js` lines 242–300) -/

/-- One entry of the `currentPool` array built by `undo`:
`{ x, y, value, used }`. -/
structure PoolEntry where
  x : Nat
  y : Nat
  value : Nat
  used : Bool
deriving DecidableEq, Repr

/-- The `currentPool` collection loop: current tile positions and values in
x-major order. -/
def collectPool (g : Grid) : List PoolEntry :=
  (List.range g.size).flatMap fun cx =>
    (List.range g.size).filterMap fun cy =>
      (g.cells cx cy).map fun t => ⟨cx, cy, t.value, false⟩

/-- The inner best-match scan of `undo`: the first unused pool index with the
right value at strictly smaller Manhattan distance than any earlier match.
Returns (index, distance). -/
def findBestAux (v rx ry : Nat) :
    List PoolEntry → Nat → Option (Nat × Nat) → Option (Nat × Nat)
  | [], _, best => best
  | e :: rest, i, best =>
    if e.used || e.value != v then findBestAux v rx ry rest (i + 1) best
    else
      let d := (Int.natAbs ((e.x : Int) - rx)) + (Int.natAbs ((e.y : Int) - ry))
      match best with
      | some (_, bd) =>
          if d < bd then findBestAux v rx ry rest (i + 1) (some (i, d))
          else findBestAux v rx ry rest (i + 1) best
      | none => findBestAux v rx ry rest (i + 1) (some (i, d))

/-- `currentPool[bestIdx].used = true`. -/
def markUsed : List PoolEntry → Nat → List PoolEntry
  | [], _ => []
  | e :: rest, 0 => { e with used := true } :: rest
  | e :: rest, i + 1 => e :: markUsed rest i

/-- One iteration of the restore loop of `undo`: rebuild the tile recorded at
(rx, ry) in the snapshot, deriving `previousPosition` from the nearest unused
same-value current tile. -/
def restoreStep (snap : Snapshot) (acc : Grid × List PoolEntry) (p : Nat × Nat) :
    Grid × List PoolEntry :=
  match snap.cells p.1 p.2 with
  | none => acc
  | some v =>
    let restored := newTile ⟨(p.1 : Int), (p.2 : Int)⟩ v
    match findBestAux v p.1 p.2 acc.2 0 none with
    | some (bi, bd) =>
        if 0 < bd then
          let e := acc.2.getD bi ⟨0, 0, 0, false⟩
          let restored1 :=
            { restored with previousPosition := some ⟨(e.x : Int), (e.y : Int)⟩ }
          (acc.1.set ⟨(p.1 : Int), (p.2 : Int)⟩ (some restored1), markUsed acc.2 bi)
        else
          (acc.1.set ⟨(p.1 : Int), (p.2 : Int)⟩ (some restored), acc.2)
    | none => (acc.1.set ⟨(p.1 : Int), (p.2 : Int)⟩ (some restored), acc.2)

/-- The (rx, ry) iteration order of the restore loop. -/
def restorePositions (n : Nat) : List (Nat × Nat) :=
  (List.range n).flatMap fun rx => (List.range n).map fun ry => (rx, ry)

/-- `GameManager.prototype.undo` (lines 242–300). -/
def undo (s : GameState) : GameState × List Effect :=
  if isTerminated s then (s, [])
  else if s.undoStack.length = 0 || s.undosUsed ≥ 2 then (s, [])
  else
    match s.undoStack.getLast? with
    | none => (s, [])
    | some snap =>
      let stack1 := s.undoStack.dropLast
      let pool := collectPool s.grid
      let restored :=
        (restorePositions s.size).foldl (restoreStep snap) (emptyGrid s.size, pool)
      ({ s with grid := restored.1, score := snap.score, over := snap.over,
                won := snap.won, undoStack := stack1,
                undosUsed := s.undosUsed + 1 },
       [Effect.sound "undo", Effect.actuate])

/-! ## Exchange (`game_manager.js` lines 151–226) -/

/-- `GameManager.prototype._clearMergeState`. -/
def clearMergeState (g : Grid) : Grid :=
  { g with cells := fun i j =>
      (g.cells i j).map fun t =>
        { t with mergedFrom := none, previousPosition := none,
                 justSpawned := false } }

/-- `GameManager.prototype.exchangeToggle` (lines 161–171). -/
def exchangeToggle (s : GameState) : GameState × List Effect :=
  if isTerminated s then (s, [])
  else if s.exchangesUsed ≥ 2 then (s, [])
  else if s.exchangePending then (s, [])
  else
    let mode1 := !s.exchangeMode
    let fx := if !mode1 then [Effect.stopPowerUp] else []
    ({ s with grid := clearMergeState s.grid, exchangeMode := mode1,
              exchangeFirst := none, exchangeSecond := none },
     fx ++ [Effect.actuate])

/-- The synchronous part of `GameManager.prototype.handleTileClick`
(lines 173–211); the 620 ms `setTimeout` body is `exchangeCommit` below. -/
def handleTileClick (s : GameState) (pos : Pos) : GameState × List Effect :=
  if !s.exchangeMode || isTerminated s then (s, [])
  else if s.exchangePending then (s, [])
  else
    match s.grid.cellContent pos with
    | none => (s, [])
    | some _ =>
      match s.exchangeFirst with
      | none =>
          ({ s with grid := clearMergeState s.grid, exchangeFirst := some pos },
           [Effect.sound "swapSelect", Effect.actuate])
      | some first =>
          if first = pos then
            ({ s with exchangeFirst := none },
             [Effect.stopPowerUp, Effect.actuate])
          else
            ({ s with exchangeSecond := some pos, exchangePending := true,
                      grid := clearMergeState s.grid },
             [Effect.sound "swapConfirm", Effect.actuate])

/-- `GameManager.prototype._doExchange` (lines 214–226): swap the tiles at
the two positions, clearing animation flags and saving positions. -/
def doExchange (g : Grid) (p1 p2 : Pos) : Grid × List Effect :=
  let t1 := g.cells p1.x.toNat p1.y.toNat
  let t2 := g.cells p2.x.toNat p2.y.toNat
  let t1m := t1.map fun t =>
    { t with mergedFrom := none, justSpawned := false,
             previousPosition := some ⟨t.x, t.y⟩, x := p2.x, y := p2.y }
  let t2m := t2.map fun t =>
    { t with mergedFrom := none, justSpawned := false,
             previousPosition := some ⟨t.x, t.y⟩, x := p1.x, y := p1.y }
  ((g.set p2 t1m).set p1 t2m, [Effect.sound "swap"])

/-- The 620 ms `setTimeout` body scheduled by `handleTileClick` (lines
200–210), reading `_exchangeFirst`/`_exchangeSecond` at fire time.  When
`_exchangeFirst` has been nulled in the meantime, `_doExchange` dereferences
`pos1.x` of null and throws, so none of the callback's updates happen: that
crash is modelled by `none`. -/
def exchangeCommit (s : GameState) : Option (GameState × List Effect) :=
  match s.exchangeFirst, s.exchangeSecond with
  | some p1, some p2 =>
      let ex := doExchange s.grid p1 p2
      some ({ s with grid := ex.1, exchangeFirst := none,
                     exchangeSecond := none, exchangePending := false,
                     exchangeMode := false,
                     exchangesUsed := s.exchangesUsed + 1 },
            ex.2 ++ [Effect.actuate])
  | _, _ => none

/-- `GameManager.prototype.restart` (lines 46–50): hide the message, reset
the terminal sound latch, then `setup()`.  Only the latch reset matters for
the claims; the fresh state is `setup` with its two start-tile spawns. -/
def restart (s : GameState) (p1 : Nat) (t1 : Bool) (p2 : Nat) (t2 : Bool) :
    GameState × List Effect :=
  let g0 := emptyGrid s.size
  let s1 := spawnTile g0 p1 t1
  let s2 := spawnTile s1.1 p2 t2
  ({ size := s.size, grid := s2.1, over := false, won := false,
     keepPlaying := false, score := 0, bestScore := s.bestScore,
     undoStack := [], undosUsed := 0, exchangesUsed := 0,
     exchangeMode := false, exchangeFirst := none, exchangeSecond := none,
     exchangePending := false },
   [Effect.resetTerminal] ++ s1.2.2 ++ s2.2.2 ++ [Effect.actuate])

end Game2048

namespace SpaceEffects

/-! ## Particle engine (`unnamed/part_000`)

Only the pool-size dynamics and the tier resolution are claim-relevant, so a
particle is abstracted to its remaining lifetime in frames (the float
position/velocity/colour fields never influence the pool length).  Random
draws are passed in as arguments. -/

/-- `MAX_PARTICLES` (line 24): the hard cap on the live pool. -/
def MAX_PARTICLES : Nat := 200

/-- The oldest-first cull at the top of `step` (lines 496–498):
`particles.splice(0, particles.length - MAX_PARTICLES)` when over the cap. -/
def cullPool (pool : List Nat) : List Nat :=
  if pool.length > MAX_PARTICLES then pool.drop (pool.length - MAX_PARTICLES)
  else pool

/-- The per-particle part of `step` (lines 500–522): decrement `life`,
remove particles whose life reaches zero.  Physics fields are irrelevant to
the pool length. -/
def agePool (pool : List Nat) : List Nat :=
  pool.filterMap fun life => if life - 1 = 0 then none else some (life - 1)

/-- One simulation frame of `step` as it acts on the pool. -/
def stepPool (pool : List Nat) : List Nat := agePool (cullPool pool)

/-- The first particle wave of `trigger` (lines 687–694): the spawn count is
clamped so the pool never exceeds `MAX_PARTICLES`
(`toSpawn = min(count, max(MAX_PARTICLES - particles.length, 0))`). -/
def firstWave (pool : List Nat) (count : Nat) (life : Nat) : List Nat :=
  let available : Int := (MAX_PARTICLES : Int) - pool.length
  let toSpawn : Int := min (count : Int) (max available 0)
  pool ++ List.replicate toSpawn.toNat life

/-- `Math.round(cfg.count * 0.22)` capped at 18 (line 699). -/
def burstCount (count : Nat) : Nat := min 18 ((count * 22 + 50) / 100)

/-- The delayed second double-burst wave (lines 697–712): fires 180 ms later
and pushes `burstCount` particles with no cap check. -/
def secondWave (pool : List Nat) (count : Nat) (life : Nat) : List Nat :=
  pool ++ List.replicate (burstCount count) life

/-- The undo fission effect `triggerSplit` (lines 723–865): cluster A (70),
cluster B (70) and the sparkle halo (40) are pushed with no cap check. -/
def triggerSplitPool (pool : List Nat) (lifeA lifeB lifeH : Nat) : List Nat :=
  pool ++ List.replicate 70 lifeA ++ List.replicate 70 lifeB
       ++ List.replicate 40 lifeH

/-- `getTier` (lines 147–153, identical in `js/space-effects.js` lines
146–152): scan the descending key list for the first key ≤ value, falling
back to tier 2.  Returns the resolved key; the configuration is `TIERS[key]`. -/
def getTier (value : Int) : Nat :=
  getTierScan value [2048, 1024, 512, 256, 128, 64, 32, 16, 8, 4, 2]
where
  getTierScan (value : Int) : List Nat → Nat
    | [] => 2
    | k :: rest => if value ≥ (k : Int) then k else getTierScan value rest

/-- The configured tier keys of the `TIERS` table (line 43–135). -/
def tierKeys : List Nat := [2048, 1024, 512, 256, 128, 64, 32, 16, 8, 4, 2]

end SpaceEffects

namespace SoundManager

/-! ## Sound dispatcher (`js/sound_manager.js` lines 471–513) -/

/-- The keys of the `_sounds` dispatch table. -/
def soundNames : List String :=
  ["move", "merge", "spawn", "undo", "swapSelect", "swapConfirm", "swap",
   "blackHole", "win", "gameover"]

/-- The module state relevant to dispatch: `_muted` and the
`_terminalPlayed` one-shot latch. -/
structure SMState where
  muted : Bool
  terminalPlayed : Bool
deriving DecidableEq, Repr

/-- `play(name)` (lines 487–496): no-op when muted or the name is unknown;
`win`/`gameover` fire at most once per game via the latch.  The `Bool`
reports whether the sound recipe actually ran. -/
def play (st : SMState) (name : String) : SMState × Bool :=
  if st.muted then (st, false)
  else if name ∉ soundNames then (st, false)
  else if name = "win" ∨ name = "gameover" then
    if st.terminalPlayed then (st, false)
    else ({ st with terminalPlayed := true }, true)
  else (st, true)

/-- `resetTerminal()` (lines 498–500), called from
`GameManager.prototype.restart`. -/
def resetTerminal (st : SMState) : SMState := { st with terminalPlayed := false }

/-- A run of `play` calls, collecting the names that actually fired. -/
def playRun (st : SMState) : List String → SMState × List String
  | [] => (st, [])
  | n :: rest =>
    let r := play st n
    let rr := playRun r.1 rest
    (rr.1, (if r.2 then [n] else []) ++ rr.2)

end SoundManager

namespace Game2048

/-! ## Verification-layer definitions -/

/-- In-bounds as a proposition over the `Int` coordinates. -/
def InB (n : Nat) (p : Pos) : Prop :=
  0 ≤ p.x ∧ p.x < n ∧ 0 ≤ p.y ∧ p.y < n

instance (n : Nat) (p : Pos) : Decidable (InB n p) := by
  unfold InB; infer_instance

/-- Position consistency as a proposition (the contents of
`Grid.posConsistent`). -/
def PC (g : Grid) : Prop :=
  ∀ i j, i < g.size → j < g.size →
    ∀ t, g.cells i j = some t → t.x = i ∧ t.y = j

/-- Per-direction traversal rank: strictly increasing along the traversal
order and strictly decreasing along the movement vector, so every write a
step performs lands at or before the cell being processed. -/
def rankOf (d : Nat) (n : Nat) (p : Pos) : Int :=
  match d with
  | 0 => p.x * n + p.y
  | 1 => ((n : Int) - 1 - p.x) * n + p.y
  | 2 => p.x * n + ((n : Int) - 1 - p.y)
  | _ => p.x * n + p.y

/-- The product tile of a merge between `tile` and `nextTile` at `next`. -/
def mergedTile (tile nextTile : Tile) (next : Pos) : Tile :=
  { x := next.x, y := next.y, value := tile.value * 2,
    previousPosition := none,
    mergedFrom := some (tile.value, nextTile.value),
    justSpawned := false }

/-- The initial loop state of `GameManager.prototype.move`. -/
def moveInit (s : GameState) : MoveState :=
  ⟨prepareGrid s.grid, s.score, s.bestScore, false, s.won, [], []⟩

/-- The loop state after the full traversal of `move`. -/
def moveFold (s : GameState) (d : Nat) : MoveState :=
  (traversalCells s.size (getVector d)).foldl (moveStep (getVector d)) (moveInit s)

/-- Total tile value on the board (the conserved mass). -/
def sumValues (g : Grid) : Nat :=
  ∑ i ∈ Finset.range g.size, ∑ j ∈ Finset.range g.size,
    (Option.map (·.value) (g.cells i j)).getD 0

/-- Number of occupied cells. -/
def tileCount (g : Grid) : Nat :=
  ∑ i ∈ Finset.range g.size, ∑ j ∈ Finset.range g.size,
    if (g.cells i j).isSome then 1 else 0

/-- Values-and-occupancy view of a cell: the observable part of the grid for
the no-op-move claim (transient animation fields excluded). -/
def cellValue (g : Grid) (i j : Nat) : Option Nat :=
  (g.cells i j).map (·.value)

/-- A 4×4 grid holding the given values along row y = 0 (demo boards for
concrete scenarios). -/
def rowGrid (vals : List (Option Nat)) : Grid :=
  { size := 4,
    cells := fun i j =>
      if j = 0 then (vals.getD i none).map fun v => newTile ⟨(i : Int), 0⟩ v
      else none }

/-- A fresh 4×4 game state over the given grid. -/
def baseState (g : Grid) : GameState :=
  { size := 4, grid := g, over := false, won := false, keepPlaying := false,
    score := 0, bestScore := 0, undoStack := [], undosUsed := 0,
    exchangesUsed := 0, exchangeMode := false, exchangeFirst := none,
    exchangeSecond := none, exchangePending := false }

/-- The demo state for the dwell-window bug: an exchange whose second tile
has been chosen (pending swap of (0,0) and (1,0)) on a board where a move to
the right displaces tiles. -/
def pendingSwapState : GameState :=
  { baseState (rowGrid [some 2, some 4, none, none]) with
      exchangeMode := true, exchangePending := true,
      exchangeFirst := some ⟨0, 0⟩, exchangeSecond := some ⟨1, 0⟩ }

/-! ## Basic grid lemmas -/

theorem withinBounds_iff (g : Grid) (p : Pos) :
    g.withinBounds p = true ↔ InB g.size p := by
  simp [Grid.withinBounds, InB, and_assoc]

theorem cellContent_eq_cells (g : Grid) (p : Pos) (h : InB g.size p) :
    g.cellContent p = g.cells p.x.toNat p.y.toNat := by
  rw [Grid.cellContent, if_pos ((withinBounds_iff g p).mpr h)]

theorem cellContent_oob (g : Grid) (p : Pos) (h : ¬ InB g.size p) :
    g.cellContent p = none := by
  rw [Grid.cellContent, if_neg]
  simp only [withinBounds_iff]
  exact h

theorem InB_of_cellContent_some (g : Grid) (p : Pos) {t : Tile}
    (h : g.cellContent p = some t) : InB g.size p := by
  by_contra hn
  rw [cellContent_oob g p hn] at h
  exact Option.noConfusion h

/-- Keys of two distinct in-bounds positions differ. -/
theorem key_injective {n : Nat} {p q : Pos} (hp : InB n p) (hq : InB n q)
    (hne : p ≠ q) : ¬(p.x.toNat = q.x.toNat ∧ p.y.toNat = q.y.toNat) := by
  rintro ⟨h1, h2⟩
  apply hne
  obtain ⟨hp1, -, hp3, -⟩ := hp
  obtain ⟨hq1, -, hq3, -⟩ := hq
  have hx : p.x = q.x := by omega
  have hy : p.y = q.y := by omega
  cases p; cases q
  simp_all

theorem set_cells (g : Grid) (p : Pos) (v : Option Tile) (i j : Nat) :
    (g.set p v).cells i j =
      if i = p.x.toNat ∧ j = p.y.toNat then v else g.cells i j := rfl

theorem set_size (g : Grid) (p : Pos) (v : Option Tile) :
    (g.set p v).size = g.size := rfl

theorem set_cells_self (g : Grid) (p : Pos) (v : Option Tile) :
    (g.set p v).cells p.x.toNat p.y.toNat = v := by
  rw [set_cells, if_pos ⟨rfl, rfl⟩]

theorem set_cells_other (g : Grid) (p : Pos) (v : Option Tile) (i j : Nat)
    (h : ¬(i = p.x.toNat ∧ j = p.y.toNat)) :
    (g.set p v).cells i j = g.cells i j := by
  rw [set_cells, if_neg h]

/-- Writing back a cell's current content changes nothing. -/
theorem set_cells_eq_self (g : Grid) (p : Pos)
    (h : g.cells p.x.toNat p.y.toNat = v) : g.set p v = g := by
  refine Grid.ext rfl fun i j => ?_
  rw [set_cells]
  split
  · rename_i hij
    rw [hij.1, hij.2, h]
  · rfl

theorem pc_iff (g : Grid) : g.posConsistent = true ↔ PC g := by
  unfold Grid.posConsistent PC
  simp only [List.all_eq_true, List.mem_range]
  constructor
  · intro h i j hi hj t ht
    have := h i hi j hj
    rw [ht] at this
    simpa using this
  · intro h i hi j hj
    cases hc : g.cells i j with
    | none => simp
    | some t =>
        have := h i j hi hj t hc
        simp [this]

/-- A `PC` grid's tile at an in-bounds position records that position. -/
theorem pc_content {g : Grid} (hpc : PC g) {p : Pos} {t : Tile}
    (h : g.cellContent p = some t) : t.x = p.x ∧ t.y = p.y := by
  have hin := InB_of_cellContent_some g p h
  rw [cellContent_eq_cells g p hin] at h
  obtain ⟨h1, h2, h3, h4⟩ := hin
  have hx : p.x.toNat < g.size := by omega
  have hy : p.y.toNat < g.size := by omega
  have := hpc _ _ hx hy t h
  omega

theorem pc_set {g : Grid} (hpc : PC g) {p : Pos} (hin : InB g.size p)
    {v : Option Tile} (hv : ∀ t, v = some t → t.x = p.x ∧ t.y = p.y) :
    PC (g.set p v) := by
  intro i j hi hj t ht
  rw [set_size] at hi hj
  rw [set_cells] at ht
  split at ht
  · rename_i hij
    obtain ⟨hvx, hvy⟩ := hv t ht
    obtain ⟨h1, h2, h3, h4⟩ := hin
    omega
  · exact hpc i j hi hj t ht

theorem pc_prepareGrid {g : Grid} (hpc : PC g) : PC (prepareGrid g) := by
  intro i j hi hj t ht
  simp only [prepareGrid] at ht
  cases hc : g.cells i j with
  | none => rw [hc] at ht; exact Option.noConfusion ht
  | some u =>
      rw [hc] at ht
      have hu := hpc i j hi hj u hc
      injection ht with ht1
      rw [← ht1]
      simpa using hu

theorem prepareGrid_size (g : Grid) : (prepareGrid g).size = g.size := rfl

theorem prepareGrid_cellValue (g : Grid) (i j : Nat) :
    cellValue (prepareGrid g) i j = cellValue g i j := by
  cases hc : g.cells i j <;> simp [cellValue, prepareGrid, hc]

/-! ## findFarthest lemmas -/

theorem findFarthestAux_next (g : Grid) (vec : Vec) :
    ∀ fuel prev, (findFarthestAux g vec fuel prev).2 =
      ⟨(findFarthestAux g vec fuel prev).1.x + vec.x,
       (findFarthestAux g vec fuel prev).1.y + vec.y⟩ := by
  intro fuel
  induction fuel with
  | zero => intro prev; rfl
  | succ n ih =>
      intro prev
      rw [findFarthestAux]
      split
      · exact ih _
      · rfl

theorem findFarthestAux_far (g : Grid) (vec : Vec) :
    ∀ fuel prev, (findFarthestAux g vec fuel prev).1 = prev ∨
      (g.withinBounds (findFarthestAux g vec fuel prev).1 = true ∧
       g.cellAvailable (findFarthestAux g vec fuel prev).1 = true) := by
  intro fuel
  induction fuel with
  | zero => intro prev; left; rfl
  | succ n ih =>
      intro prev
      rw [findFarthestAux]
      split
      · rename_i h
        rcases ih ⟨prev.x + vec.x, prev.y + vec.y⟩ with h1 | h1
        · right; rw [h1]; exact h
        · right; exact h1
      · left; rfl

theorem findFarthestAux_rank (g : Grid) (vec : Vec) (rk : Pos → Int)
    (hstep : ∀ p : Pos, rk ⟨p.x + vec.x, p.y + vec.y⟩ < rk p) :
    ∀ fuel prev, rk (findFarthestAux g vec fuel prev).1 ≤ rk prev ∧
      rk (findFarthestAux g vec fuel prev).2 < rk prev := by
  intro fuel
  induction fuel with
  | zero => intro prev; exact ⟨le_refl _, hstep prev⟩
  | succ n ih =>
      intro prev
      rw [findFarthestAux]
      split
      · obtain ⟨h1, h2⟩ := ih ⟨prev.x + vec.x, prev.y + vec.y⟩
        have := hstep prev
        constructor <;> [exact le_trans h1 (le_of_lt this); exact lt_trans h2 this]
      · exact ⟨le_refl _, hstep prev⟩

/-! ## Rank and traversal-order lemmas -/

theorem rank_step {d n : Nat} (hd : d < 4) (hn : 0 < n) (p : Pos) :
    rankOf d n ⟨p.x + (getVector d).x, p.y + (getVector d).y⟩ < rankOf d n p := by
  interval_cases d <;>
    simp only [rankOf, getVector] <;> nlinarith [Int.ofNat_pos.mpr hn]

theorem mem_traversalCells {n : Nat} {vec : Vec} {p : Pos}
    (h : p ∈ traversalCells n vec) : InB n p ∧ p.x = p.x.toNat ∧ p.y = p.y.toNat := by
  simp only [traversalCells, buildTraversals] at h
  rw [List.mem_flatMap] at h
  obtain ⟨x, hx, h⟩ := h
  rw [List.mem_map] at h
  obtain ⟨y, hy, rfl⟩ := h
  have hx' : x < n := by
    rcases em (vec.x = 1) with hc | hc
    · rw [if_pos hc, List.mem_reverse, List.mem_range] at hx; exact hx
    · rw [if_neg hc, List.mem_range] at hx; exact hx
  have hy' : y < n := by
    rcases em (vec.y = 1) with hc | hc
    · rw [if_pos hc, List.mem_reverse, List.mem_range] at hy; exact hy
    · rw [if_neg hc, List.mem_range] at hy; exact hy
  refine ⟨⟨?_, ?_, ?_, ?_⟩, ?_, ?_⟩ <;> simp <;> omega

/-- The traversal visits cells in strictly increasing rank order, so each
step's writes (which land at rank ≤ the current cell) never touch a cell
that is still to be processed. -/
theorem traversal_sorted {d n : Nat} (hd : d < 4) :
    (traversalCells n (getVector d)).Pairwise
      (fun a b => rankOf d n a < rankOf d n b) := by
  have hblock : ∀ (xs ys : List Nat),
      xs.Pairwise (fun (a b : Nat) => ∀ y1 y2 : Nat, y1 < n → y2 < n →
        rankOf d n ⟨(a : Int), (y1 : Int)⟩ < rankOf d n ⟨(b : Int), (y2 : Int)⟩) →
      (∀ y, y ∈ ys → y < n) →
      ys.Pairwise (fun (y1 y2 : Nat) => ∀ x : Nat,
        rankOf d n ⟨(x : Int), (y1 : Int)⟩ < rankOf d n ⟨(x : Int), (y2 : Int)⟩) →
      (xs.flatMap fun (x : Nat) => ys.map fun (y : Nat) =>
        (⟨(x : Int), (y : Int)⟩ : Pos)).Pairwise
        (fun a b => rankOf d n a < rankOf d n b) := by
    intro xs ys hxs hysmem hys
    induction xs with
    | nil => simp
    | cons x rest ih =>
        rw [List.flatMap_cons, List.pairwise_append]
        refine ⟨?_, ih hxs.tail, ?_⟩
        · rw [List.pairwise_map]
          exact hys.imp fun h => h x
        · intro a ha b hb
          rw [List.mem_map] at ha
          obtain ⟨y1, hy1, rfl⟩ := ha
          rw [List.mem_flatMap] at hb
          obtain ⟨x2, hx2, hb⟩ := hb
          rw [List.mem_map] at hb
          obtain ⟨y2, hy2, rfl⟩ := hb
          exact (List.rel_of_pairwise_cons hxs hx2) y1 y2
            (hysmem y1 hy1) (hysmem y2 hy2)
  unfold traversalCells buildTraversals
  have hrange : ∀ y, y ∈ List.range n → y < n := fun y hy => List.mem_range.mp hy
  have hrev : ∀ y, y ∈ (List.range n).reverse → y < n := by
    intro y hy
    rw [List.mem_reverse] at hy
    exact List.mem_range.mp hy
  have hlt : (List.range n).Pairwise (· < ·) := List.pairwise_lt_range n
  have hgt : ((List.range n).reverse).Pairwise (· > ·) := by
    rw [List.pairwise_reverse]
    exact hlt.imp fun h => h
  interval_cases d <;> simp only [getVector] <;> norm_num
  · -- up: x ascending, y ascending, rank = x*n + y
    refine hblock _ _ (hlt.imp ?_) hrange (hlt.imp ?_)
    · intro a b hab y1 y2 h1 h2
      simp only [rankOf]
      nlinarith
    · intro y1 y2 h x
      simp only [rankOf]
      nlinarith
  · -- right: x descending, y ascending, rank = (n-1-x)*n + y
    refine hblock _ _ (hgt.imp ?_) hrange (hlt.imp ?_)
    · intro a b hab y1 y2 h1 h2
      simp only [rankOf]
      nlinarith
    · intro y1 y2 h x
      simp only [rankOf]
      nlinarith
  · -- down: x ascending, y descending, rank = x*n + (n-1-y)
    simp only [← List.map_reverse]
    refine hblock _ _ (hlt.imp ?_) hrev (hgt.imp ?_)
    · intro a b hab y1 y2 h1 h2
      simp only [rankOf]
      nlinarith
    · intro y1 y2 h x
      simp only [rankOf]
      nlinarith
  · -- left: x ascending, y ascending, rank = x*n + y
    refine hblock _ _ (hlt.imp ?_) hrange (hlt.imp ?_)
    · intro a b hab y1 y2 h1 h2
      simp only [rankOf]
      nlinarith
    · intro y1 y2 h x
      simp only [rankOf]
      nlinarith

/-! ## Cell-measure update lemmas (tile mass and tile count) -/

theorem sum_range_update (n b : Nat) (hb : b < n) (u w : Nat → Nat)
    (hoff : ∀ j, j ≠ b → u j = w j) :
    (∑ j ∈ Finset.range n, u j) + w b = (∑ j ∈ Finset.range n, w j) + u b := by
  have hb' : b ∈ Finset.range n := Finset.mem_range.mpr hb
  rw [← Finset.sum_erase_add _ u hb', ← Finset.sum_erase_add _ w hb']
  have he : ∑ j ∈ (Finset.range n).erase b, u j
      = ∑ j ∈ (Finset.range n).erase b, w j :=
    Finset.sum_congr rfl fun j hj => hoff j (Finset.ne_of_mem_erase hj)
  omega

theorem sum_range2_update (n a b : Nat) (ha : a < n) (hb : b < n)
    (F G : Nat → Nat → Nat) (hoff : ∀ i j, ¬(i = a ∧ j = b) → F i j = G i j) :
    (∑ i ∈ Finset.range n, ∑ j ∈ Finset.range n, F i j) + G a b
      = (∑ i ∈ Finset.range n, ∑ j ∈ Finset.range n, G i j) + F a b := by
  have houter : (∑ i ∈ Finset.range n, ∑ j ∈ Finset.range n, F i j)
        + (∑ j ∈ Finset.range n, G a j)
      = (∑ i ∈ Finset.range n, ∑ j ∈ Finset.range n, G i j)
        + (∑ j ∈ Finset.range n, F a j) :=
    sum_range_update n a ha _ _
      (fun i hi => Finset.sum_congr rfl fun j _ => hoff i j (fun hij => hi hij.1))
  have hinner : (∑ j ∈ Finset.range n, F a j) + G a b
      = (∑ j ∈ Finset.range n, G a j) + F a b :=
    sum_range_update n b hb _ _ (fun j hj => hoff a j (fun hij => hj hij.2))
  omega

/-- A per-cell measure of the grid (0 on empty cells). -/
def gridMeasure (m : Tile → Nat) (g : Grid) : Nat :=
  ∑ i ∈ Finset.range g.size, ∑ j ∈ Finset.range g.size,
    ((g.cells i j).map m).getD 0

theorem gridMeasure_set (m : Tile → Nat) (g : Grid) (p : Pos)
    (hin : InB g.size p) (v : Option Tile) :
    gridMeasure m (g.set p v) + ((g.cells p.x.toNat p.y.toNat).map m).getD 0
      = gridMeasure m g + (v.map m).getD 0 := by
  obtain ⟨h1, h2, h3, h4⟩ := hin
  have ha : p.x.toNat < g.size := by omega
  have hb : p.y.toNat < g.size := by omega
  have key : (∑ i ∈ Finset.range g.size, ∑ j ∈ Finset.range g.size,
        (((g.set p v).cells i j).map m).getD 0)
        + ((g.cells p.x.toNat p.y.toNat).map m).getD 0
      = (∑ i ∈ Finset.range g.size, ∑ j ∈ Finset.range g.size,
        ((g.cells i j).map m).getD 0)
        + (((g.set p v).cells p.x.toNat p.y.toNat).map m).getD 0 :=
    sum_range2_update g.size p.x.toNat p.y.toNat ha hb
      (fun i j => ((Option.map m ((g.set p v).cells i j)).getD 0))
      (fun i j => ((Option.map m (g.cells i j)).getD 0))
      (fun i j hij => by
        show (Option.map m ((g.set p v).cells i j)).getD 0
          = (Option.map m (g.cells i j)).getD 0
        rw [set_cells_other g p v i j hij])
  rw [set_cells_self] at key
  rw [gridMeasure, gridMeasure, set_size]
  omega

theorem sumValues_eq_measure (g : Grid) :
    sumValues g = gridMeasure (fun t => t.value) g := rfl

theorem tileCount_eq_measure (g : Grid) :
    tileCount g = gridMeasure (fun _ => 1) g := by
  unfold tileCount gridMeasure
  refine Finset.sum_congr rfl fun i _ => Finset.sum_congr rfl fun j _ => ?_
  cases g.cells i j <;> rfl

theorem gridMeasure_prepareGrid (m : Tile → Nat)
    (hm : ∀ t mf pp, m { t with mergedFrom := mf, previousPosition := pp } = m t)
    (g : Grid) : gridMeasure m (prepareGrid g) = gridMeasure m g := by
  unfold gridMeasure
  rw [prepareGrid_size]
  refine Finset.sum_congr rfl fun i _ => Finset.sum_congr rfl fun j _ => ?_
  have hcell : (prepareGrid g).cells i j = (g.cells i j).map
      (fun t => { t with mergedFrom := none,
                         previousPosition := some ⟨t.x, t.y⟩ }) := rfl
  rw [hcell]
  cases g.cells i j with
  | none => rfl
  | some t =>
      show m { t with mergedFrom := none,
                      previousPosition := some ⟨t.x, t.y⟩ } = m t
      exact hm t none _

/-! ## Characterizing one traversal step -/

theorem posEqual_iff (a b : Pos) : posEqual a b = true ↔ a = b := by
  unfold posEqual
  rw [Bool.and_eq_true, beq_iff_eq, beq_iff_eq]
  cases a; cases b
  simp

theorem posEqual_of_ne {a b : Pos} (h : a ≠ b) : posEqual a b = false := by
  rcases hb : posEqual a b with _ | _
  · rfl
  · exact absurd ((posEqual_iff a b).mp hb) h

theorem set_set_same (g : Grid) (p : Pos) (v w : Option Tile) :
    (g.set p v).set p w = g.set p w := by
  refine Grid.ext rfl fun i j => ?_
  rw [set_cells, set_cells, set_cells]
  split <;> rfl

theorem cellAvailable_iff (g : Grid) (p : Pos) :
    g.cellAvailable p = true ↔ g.cellContent p = none := by
  rw [Grid.cellAvailable, Grid.cellOccupied]
  cases g.cellContent p <;> simp

theorem findFarthestAux_far_rank (g : Grid) (vec : Vec) (rk : Pos → Int)
    (hstep : ∀ p : Pos, rk ⟨p.x + vec.x, p.y + vec.y⟩ < rk p) :
    ∀ fuel prev, (findFarthestAux g vec fuel prev).1 = prev ∨
      rk (findFarthestAux g vec fuel prev).1 < rk prev := by
  intro fuel
  induction fuel with
  | zero => intro prev; left; rfl
  | succ n ih =>
      intro prev
      rw [findFarthestAux]
      split
      · rcases ih ⟨prev.x + vec.x, prev.y + vec.y⟩ with h1 | h1
        · right; rw [h1]; exact hstep prev
        · right; exact lt_trans h1 (hstep prev)
      · left; rfl

theorem slideTile_eq (st : MoveState) (cell : Pos) (tile : Tile)
    (farthest : Pos) (htx : tile.x = cell.x) (hty : tile.y = cell.y) :
    slideTile st cell tile farthest =
      { st with
          grid := (st.grid.set cell none).set farthest
                    (some { tile with x := farthest.x, y := farthest.y }),
          moved := st.moved || !(posEqual cell farthest) } := by
  have h1 : (⟨tile.x, tile.y⟩ : Pos) = cell := by rw [htx, hty]
  unfold slideTile
  rw [h1]

theorem mergeTile_eq (st : MoveState) (cell : Pos) (tile : Tile) (next : Pos)
    (nextTile : Tile) (htx : tile.x = cell.x) (hty : tile.y = cell.y) :
    mergeTile st cell tile next nextTile =
      { grid := (st.grid.set next (some
          { x := next.x, y := next.y, value := tile.value * 2,
            previousPosition := none,
            mergedFrom := some (tile.value, nextTile.value),
            justSpawned := false })).set cell none,
        score := st.score + tile.value * 2,
        bestScore := if st.score + tile.value * 2 > st.bestScore
                     then st.score + tile.value * 2 else st.bestScore,
        moved := st.moved || !(posEqual cell next),
        won := if tile.value * 2 = 2048 then true else st.won,
        merges := st.merges ++ [⟨tile, nextTile,
          { x := next.x, y := next.y, value := tile.value * 2,
            previousPosition := none,
            mergedFrom := some (tile.value, nextTile.value),
            justSpawned := false }⟩],
        effects := st.effects ++ [Effect.sound "merge"]
          ++ (if tile.value * 2 = 2048 then [Effect.sound "win"] else []) } := by
  have h1 : (⟨tile.x, tile.y⟩ : Pos) = cell := by rw [htx, hty]
  unfold mergeTile Grid.insertTile Grid.removeTile
  rw [h1]
  rfl

/-- Every traversal step is a no-op, a real slide to an empty earlier cell,
or a merge into an occupied earlier cell. -/
theorem moveStep_cases (d : Nat) (hd : d < 4) (st : MoveState) (cell : Pos)
    (hin : InB st.grid.size cell) (hpc : PC st.grid) :
    moveStep (getVector d) st cell = st ∨
    (∃ tile farthest,
      st.grid.cellContent cell = some tile ∧
      InB st.grid.size farthest ∧
      st.grid.cellContent farthest = none ∧
      farthest ≠ cell ∧
      rankOf d st.grid.size farthest < rankOf d st.grid.size cell ∧
      moveStep (getVector d) st cell =
        { st with
            grid := (st.grid.set cell none).set farthest
                      (some { tile with x := farthest.x, y := farthest.y }),
            moved := true }) ∨
    (∃ tile next nextTile,
      st.grid.cellContent cell = some tile ∧
      st.grid.cellContent next = some nextTile ∧
      InB st.grid.size next ∧ next ≠ cell ∧
      rankOf d st.grid.size next < rankOf d st.grid.size cell ∧
      nextTile.value = tile.value ∧ nextTile.mergedFrom = none ∧
      moveStep (getVector d) st cell =
        { grid := (st.grid.set next (some (mergedTile tile nextTile next))).set
                    cell none,
          score := st.score + tile.value * 2,
          bestScore := if st.score + tile.value * 2 > st.bestScore
                       then st.score + tile.value * 2 else st.bestScore,
          moved := true,
          won := if tile.value * 2 = 2048 then true else st.won,
          merges := st.merges ++ [⟨tile, nextTile, mergedTile tile nextTile next⟩],
          effects := st.effects ++ [Effect.sound "merge"]
            ++ (if tile.value * 2 = 2048 then [Effect.sound "win"] else []) }) := by
  have hn : 0 < st.grid.size := by
    obtain ⟨h1, h2, -, -⟩ := hin
    omega
  rcases Option.eq_none_or_eq_some (st.grid.cellContent cell) with hcc | ⟨tile, hcc⟩
  · left
    simp only [moveStep, hcc]
  · obtain ⟨htx, hty⟩ := pc_content hpc hcc
    have hrank := findFarthestAux_rank st.grid (getVector d)
      (rankOf d st.grid.size) (rank_step hd hn) (st.grid.size + 1) cell
    have hfarrank := findFarthestAux_far_rank st.grid (getVector d)
      (rankOf d st.grid.size) (rank_step hd hn) (st.grid.size + 1) cell
    have hfar := findFarthestAux_far st.grid (getVector d) (st.grid.size + 1) cell
    have hnecell : (findFarthestAux st.grid (getVector d) (st.grid.size + 1)
        cell).2 ≠ cell := by
      intro he
      rw [he] at hrank
      exact lt_irrefl _ hrank.2
    have hff : findFarthest st.grid cell (getVector d)
        = findFarthestAux st.grid (getVector d) (st.grid.size + 1) cell := rfl
    -- Slide branches share this analysis of `farthest`.
    have slideCase :
        moveStep (getVector d) st cell
          = slideTile st cell tile
              (findFarthestAux st.grid (getVector d) (st.grid.size + 1) cell).1 →
        (moveStep (getVector d) st cell = st ∨
          (∃ t farthest,
            st.grid.cellContent cell = some t ∧
            InB st.grid.size farthest ∧
            st.grid.cellContent farthest = none ∧
            farthest ≠ cell ∧
            rankOf d st.grid.size farthest < rankOf d st.grid.size cell ∧
            moveStep (getVector d) st cell =
              { st with
                  grid := (st.grid.set cell none).set farthest
                            (some { t with x := farthest.x, y := farthest.y }),
                  moved := true })) := by
      intro hstep
      rcases hfar with hfc | ⟨hwb, hav⟩
      · left
        rw [hstep, hfc, slideTile_eq st cell tile cell htx hty]
        have htile : ({ tile with x := cell.x, y := cell.y } : Tile) = tile := by
          rw [← htx, ← hty]
        have hcells : st.grid.cells cell.x.toNat cell.y.toNat = some tile := by
          rw [← cellContent_eq_cells st.grid cell hin, hcc]
        rw [htile, set_set_same, set_cells_eq_self st.grid cell hcells,
            (posEqual_iff cell cell).mpr rfl]
        simp only [Bool.not_true, Bool.or_false]
      · right
        have hcn : st.grid.cellContent (findFarthestAux st.grid (getVector d)
            (st.grid.size + 1) cell).1 = none := (cellAvailable_iff _ _).mp hav
        have hfne : (findFarthestAux st.grid (getVector d)
            (st.grid.size + 1) cell).1 ≠ cell := by
          intro he
          rw [he, hcc] at hcn
          exact Option.noConfusion hcn
        refine ⟨tile, _, hcc, (withinBounds_iff _ _).mp hwb, hcn, hfne, ?_, ?_⟩
        · rcases hfarrank with h1 | h1
          · exact absurd h1 hfne
          · exact h1
        · rw [hstep, slideTile_eq st cell tile _ htx hty,
              posEqual_of_ne (fun he => hfne he.symm)]
          simp only [Bool.not_false, Bool.or_true]
    cases hcn : st.grid.cellContent (findFarthestAux st.grid (getVector d)
        (st.grid.size + 1) cell).2 with
    | some nextTile =>
      by_cases hguard : nextTile.value = tile.value ∧ nextTile.mergedFrom = none
      · right; right
        refine ⟨tile,
          (findFarthestAux st.grid (getVector d) (st.grid.size + 1) cell).2,
          nextTile, hcc, hcn, InB_of_cellContent_some _ _ hcn,
          hnecell, hrank.2, hguard.1, hguard.2, ?_⟩
        have hstep : moveStep (getVector d) st cell
            = mergeTile st cell tile
                (findFarthestAux st.grid (getVector d) (st.grid.size + 1) cell).2
                nextTile := by
          simp only [moveStep, hcc, hff, hcn, if_pos hguard]
        rw [hstep, mergeTile_eq st cell tile _ nextTile htx hty,
            posEqual_of_ne (fun he => hnecell he.symm)]
        simp only [Bool.not_false, Bool.or_true]
        rfl
      · rcases slideCase
            (by simp only [moveStep, hcc, hff, hcn, if_neg hguard]) with h | h
        · exact Or.inl h
        · exact Or.inr (Or.inl h)
    | none =>
        rcases slideCase (by simp only [moveStep, hcc, hff, hcn]) with h | h
        · exact Or.inl h
        · exact Or.inr (Or.inl h)

/-! ## The traversal fold: preserved invariants -/

theorem cellContent_set_self (g : Grid) (p : Pos) (v : Option Tile)
    (hp : InB g.size p) : (g.set p v).cellContent p = v := by
  rw [cellContent_eq_cells _ p (by simpa [set_size] using hp), set_cells_self]

theorem cellContent_set_other (g : Grid) (p q : Pos) (v : Option Tile)
    (hp : InB g.size p) (hne : q ≠ p) :
    (g.set p v).cellContent q = g.cellContent q := by
  by_cases hq : InB g.size q
  · rw [cellContent_eq_cells _ q (by simpa [set_size] using hq),
        cellContent_eq_cells _ q hq]
    exact set_cells_other g p v _ _ (key_injective hq hp hne)
  · rw [cellContent_oob _ q (by simpa [set_size] using hq),
        cellContent_oob _ q hq]

/-- The grand tour of the traversal fold: size, position consistency and the
total tile value are preserved; a fold that reports no movement is the
identity; `won`, the effect log and the merge log only grow; new merge
records are well-formed doublings whose 2048 products set `won` and emit the
win sound; and once something moved there is an empty cell. -/
theorem moveFold_master (d : Nat) (hd : d < 4) :
    ∀ (l : List Pos) (st : MoveState),
      PC st.grid →
      (∀ c ∈ l, InB st.grid.size c) →
      ((l.foldl (moveStep (getVector d)) st).grid.size = st.grid.size ∧
       PC (l.foldl (moveStep (getVector d)) st).grid ∧
       sumValues (l.foldl (moveStep (getVector d)) st).grid
         = sumValues st.grid ∧
       ((l.foldl (moveStep (getVector d)) st).moved = false →
         l.foldl (moveStep (getVector d)) st = st) ∧
       (st.won = true → (l.foldl (moveStep (getVector d)) st).won = true) ∧
       (∀ e ∈ st.effects, e ∈ (l.foldl (moveStep (getVector d)) st).effects) ∧
       (∀ rec ∈ (l.foldl (moveStep (getVector d)) st).merges,
         rec ∈ st.merges ∨
         (rec.product.value = 2 * rec.moving.value ∧
          rec.target.value = rec.moving.value ∧
          rec.target.mergedFrom = none ∧
          rec.product.mergedFrom = some (rec.moving.value, rec.target.value) ∧
          (rec.product.value = 2048 →
            (l.foldl (moveStep (getVector d)) st).won = true ∧
            Effect.sound "win" ∈ (l.foldl (moveStep (getVector d)) st).effects))) ∧
       ((st.moved = true → ∃ p, InB st.grid.size p ∧
           st.grid.cellContent p = none) →
         ((l.foldl (moveStep (getVector d)) st).moved = true → ∃ p,
           InB st.grid.size p ∧
           (l.foldl (moveStep (getVector d)) st).grid.cellContent p = none)) ∧
       (st.moved = true → (l.foldl (moveStep (getVector d)) st).moved = true)) := by
  intro l
  induction l with
  | nil =>
      intro st hpc hl
      exact ⟨rfl, hpc, rfl, fun _ => rfl, fun h => h, fun e he => he,
        fun rec hrec => Or.inl hrec, fun h => h, fun h => h⟩
  | cons c l' ih =>
      intro st hpc hl
      have hinc : InB st.grid.size c := hl c (List.mem_cons_self c l')
      rw [List.foldl_cons]
      rcases moveStep_cases d hd st c hinc hpc with hcase |
        ⟨tile, farthest, hcc, hinf, hcf, hfne, hfr, hcase⟩ |
        ⟨tile, next, nextTile, hcc, hcn, hinn, hnne, hnr, hvg, hmg, hcase⟩
      · rw [hcase]
        exact ih st hpc (fun p hp => hl p (List.mem_cons_of_mem c hp))
      · -- real slide to an empty cell
        rw [hcase]
        set tile1 : Tile := { tile with x := farthest.x, y := farthest.y }
          with htile1
        set st1 : MoveState :=
          { st with grid := (st.grid.set c none).set farthest (some tile1),
                    moved := true } with hst1
        have hsz : st1.grid.size = st.grid.size := rfl
        have hpc1 : PC st1.grid := by
          refine pc_set (pc_set hpc hinc ?_) (by simpa using hinf) ?_
          · intro t ht
            exact Option.noConfusion ht
          · intro t ht
            injection ht with ht
            rw [← ht]
            obtain ⟨h1, h2⟩ := pc_content hpc hcc
            exact ⟨rfl, rfl⟩
        obtain ⟨i1, i2, i3, i4, i5, i6, i7, i8, i9⟩ :=
          ih st1 hpc1 (fun p hp => hl p (List.mem_cons_of_mem c hp))
        have hckey : st.grid.cells c.x.toNat c.y.toNat = some tile := by
          rw [← cellContent_eq_cells st.grid c hinc, hcc]
        have hfkey : st.grid.cells farthest.x.toNat farthest.y.toNat = none := by
          rw [← cellContent_eq_cells st.grid farthest hinf, hcf]
        have hsum : sumValues st1.grid = sumValues st.grid := by
          have e1 : gridMeasure (fun t => t.value) (st.grid.set c none)
              + tile.value = gridMeasure (fun t => t.value) st.grid := by
            have h := gridMeasure_set (fun t => t.value) st.grid c hinc none
            rw [hckey] at h
            simpa using h
          have e2 : gridMeasure (fun t => t.value)
              ((st.grid.set c none).set farthest (some tile1))
              = gridMeasure (fun t => t.value) (st.grid.set c none)
                + tile1.value := by
            have h := gridMeasure_set (fun t => t.value) (st.grid.set c none)
              farthest (by simpa using hinf) (some tile1)
            rw [set_cells_other st.grid c none _ _
              (key_injective hinf hinc hfne), hfkey] at h
            simpa using h
          rw [sumValues_eq_measure, sumValues_eq_measure]
          show gridMeasure (fun t => t.value)
            ((st.grid.set c none).set farthest (some tile1)) = _
          have hv : tile1.value = tile.value := rfl
          omega
        have hempty1 : st1.grid.cellContent c = none := by
          rw [hst1]
          show ((st.grid.set c none).set farthest (some tile1)).cellContent c
            = none
          rw [cellContent_set_other _ _ _ _ (by simpa using hinf) hfne.symm,
              cellContent_set_self _ _ _ hinc]
        refine ⟨by rw [i1]; exact hsz, i2, by rw [i3, hsum], ?_, ?_, ?_, ?_, ?_, ?_⟩
        · intro hmv
          have : st1.moved = true := rfl
          rw [i9 this] at hmv
          exact Bool.noConfusion hmv
        · intro hw
          exact i5 hw
        · intro e he
          exact i6 e he
        · intro rec hrec
          rcases i7 rec hrec with h | h
          · exact Or.inl h
          · exact Or.inr h
        · intro _ hmv
          exact i8 (fun _ => ⟨c, hinc, hempty1⟩) hmv
        · intro _
          exact i9 rfl
      · -- merge
        rw [hcase]
        set prod : Tile := mergedTile tile nextTile next with hprod
        set st1 : MoveState :=
          { grid := (st.grid.set next (some prod)).set c none,
            score := st.score + tile.value * 2,
            bestScore := if st.score + tile.value * 2 > st.bestScore
                         then st.score + tile.value * 2 else st.bestScore,
            moved := true,
            won := if tile.value * 2 = 2048 then true else st.won,
            merges := st.merges ++ [⟨tile, nextTile, prod⟩],
            effects := st.effects ++ [Effect.sound "merge"]
              ++ (if tile.value * 2 = 2048 then [Effect.sound "win"] else []) }
          with hst1
        have hsz : st1.grid.size = st.grid.size := rfl
        have hpc1 : PC st1.grid := by
          refine pc_set (pc_set hpc (by simpa using hinn) ?_) hinc ?_
          · intro t ht
            injection ht with ht
            rw [← ht, hprod]
            exact ⟨rfl, rfl⟩
          · intro t ht
            exact Option.noConfusion ht
        obtain ⟨i1, i2, i3, i4, i5, i6, i7, i8, i9⟩ :=
          ih st1 hpc1 (fun p hp => hl p (List.mem_cons_of_mem c hp))
        have hckey : st.grid.cells c.x.toNat c.y.toNat = some tile := by
          rw [← cellContent_eq_cells st.grid c hinc, hcc]
        have hnkey : st.grid.cells next.x.toNat next.y.toNat = some nextTile := by
          rw [← cellContent_eq_cells st.grid next hinn, hcn]
        have hsum : sumValues st1.grid = sumValues st.grid := by
          have e1 : gridMeasure (fun t => t.value) (st.grid.set next (some prod))
              + nextTile.value
              = gridMeasure (fun t => t.value) st.grid + prod.value := by
            have h := gridMeasure_set (fun t => t.value) st.grid next hinn
              (some prod)
            rw [hnkey] at h
            simpa using h
          have e2 : gridMeasure (fun t => t.value)
              ((st.grid.set next (some prod)).set c none) + tile.value
              = gridMeasure (fun t => t.value)
                  (st.grid.set next (some prod)) := by
            have h := gridMeasure_set (fun t => t.value)
              (st.grid.set next (some prod)) c (by simpa using hinc) none
            rw [set_cells_other st.grid next _ _ _
              (key_injective hinc hinn hnne.symm), hckey] at h
            simpa using h
          rw [sumValues_eq_measure, sumValues_eq_measure]
          show gridMeasure (fun t => t.value)
            ((st.grid.set next (some prod)).set c none) = _
          have hpv : prod.value = tile.value * 2 := rfl
          have hnv : nextTile.value = tile.value := hvg
          omega
        have hempty1 : st1.grid.cellContent c = none := by
          rw [hst1]
          show ((st.grid.set next (some prod)).set c none).cellContent c = none
          rw [cellContent_set_self _ _ _ (by simpa using hinc)]
        refine ⟨by rw [i1]; exact hsz, i2, by rw [i3, hsum], ?_, ?_, ?_, ?_, ?_, ?_⟩
        · intro hmv
          have : st1.moved = true := rfl
          rw [i9 this] at hmv
          exact Bool.noConfusion hmv
        · intro hw
          refine i5 ?_
          rw [hst1]
          show (if tile.value * 2 = 2048 then true else st.won) = true
          split <;> simp [hw]
        · intro e he
          refine i6 e ?_
          rw [hst1]
          simp only [List.mem_append]
          exact Or.inl (Or.inl he)
        · intro rec hrec
          rcases i7 rec hrec with h | h
          · rw [hst1] at h
            simp only [List.mem_append, List.mem_singleton] at h
            rcases h with h | h
            · exact Or.inl h
            · right
              subst h
              refine ⟨Nat.mul_comm tile.value 2, by simpa using hvg, hmg,
                rfl, ?_⟩
              intro h2048
              have hv2048 : tile.value * 2 = 2048 := by
                simpa [hprod, mergedTile] using h2048
              constructor
              · refine i5 ?_
                rw [hst1]
                show (if tile.value * 2 = 2048 then true else st.won) = true
                rw [if_pos hv2048]
              · refine i6 _ ?_
                rw [hst1]
                simp only [List.mem_append]
                right
                rw [if_pos hv2048]
                simp
          · exact Or.inr h
        · intro _ hmv
          exact i8 (fun _ => ⟨c, hinc, hempty1⟩) hmv
        · intro _
          exact i9 rfl

/-- Cells still to be traversed are only read or emptied, never overwritten:
every merge's moving tile is the tile the pre-move grid `g0` holds at the
traversal cell being processed. -/
theorem moveFold_untouched (d : Nat) (hd : d < 4) :
    ∀ (l : List Pos) (st : MoveState) (g0 : Grid),
      PC st.grid → st.grid.size = g0.size →
      (∀ c ∈ l, InB g0.size c) →
      l.Pairwise (fun a b => rankOf d g0.size a < rankOf d g0.size b) →
      (∀ p ∈ l, st.grid.cellContent p = g0.cellContent p ∨
        st.grid.cellContent p = none) →
      ∀ rec ∈ (l.foldl (moveStep (getVector d)) st).merges,
        rec ∈ st.merges ∨
          ∃ p, InB g0.size p ∧ g0.cellContent p = some rec.moving := by
  intro l
  induction l with
  | nil =>
      intro st g0 _ _ _ _ _ rec hrec
      exact Or.inl hrec
  | cons c l' ih =>
      intro st g0 hpc hsz hl hpw hsuf rec hrec
      rw [List.foldl_cons] at hrec
      have hinc : InB st.grid.size c := by
        rw [hsz]
        exact hl c (List.mem_cons_self c l')
      have hrankc : ∀ p ∈ l', rankOf d g0.size c < rankOf d g0.size p :=
        fun p hp => List.rel_of_pairwise_cons hpw hp
      rcases moveStep_cases d hd st c hinc hpc with hcase |
        ⟨tile, farthest, hcc, hinf, hcf, hfne, hfr, hcase⟩ |
        ⟨tile, next, nextTile, hcc, hcn, hinn, hnne, hnr, hvg, hmg, hcase⟩
      · rw [hcase] at hrec
        exact ih st g0 hpc hsz (fun p hp => hl p (List.mem_cons_of_mem c hp))
          hpw.tail (fun p hp => hsuf p (List.mem_cons_of_mem c hp)) rec hrec
      · -- real slide: writes land at `c` and `farthest`, both before `l'`
        rw [hcase] at hrec
        rw [hsz] at hfr
        have hsuf1 : ∀ p ∈ l',
            ((st.grid.set c none).set farthest
              (some { tile with x := farthest.x, y := farthest.y })).cellContent p
              = g0.cellContent p ∨
            ((st.grid.set c none).set farthest
              (some { tile with x := farthest.x, y := farthest.y })).cellContent p
              = none := by
          intro p hp
          have hnep1 : p ≠ farthest := by
            intro he
            rw [he] at hp
            exact absurd (lt_trans hfr (hrankc farthest hp)) (lt_irrefl _)
          have hnep2 : p ≠ c := by
            intro he
            rw [he] at hp
            exact absurd (hrankc c hp) (lt_irrefl _)
          rw [cellContent_set_other _ _ _ _ (by simpa using hinf) hnep1,
              cellContent_set_other _ _ _ _ hinc hnep2]
          exact hsuf p (List.mem_cons_of_mem c hp)
        have hpc1 : PC ((st.grid.set c none).set farthest
            (some { tile with x := farthest.x, y := farthest.y })) := by
          refine pc_set (pc_set hpc hinc ?_) (by simpa using hinf) ?_
          · intro t ht
            exact Option.noConfusion ht
          · intro t ht
            injection ht with ht
            rw [← ht]
            exact ⟨rfl, rfl⟩
        rw [← hcase] at hrec
        rcases ih (moveStep (getVector d) st c) g0 (by rw [hcase]; exact hpc1)
          (by rw [hcase]; exact hsz)
          (fun p hp => hl p (List.mem_cons_of_mem c hp)) hpw.tail
          (by rw [hcase]; exact hsuf1) rec hrec with h | h
        · left
          rw [hcase] at h
          exact h
        · exact Or.inr h
      · -- merge: the moving tile is the pre-move tile at `c`
        rw [hsz] at hnr
        have hg0c : g0.cellContent c = some tile := by
          rcases hsuf c (List.mem_cons_self c l') with h | h
          · rw [← h]; exact hcc
          · rw [hcc] at h; exact Option.noConfusion h
        have hsuf1 : ∀ p ∈ l',
            ((st.grid.set next (some (mergedTile tile nextTile next))).set
              c none).cellContent p = g0.cellContent p ∨
            ((st.grid.set next (some (mergedTile tile nextTile next))).set
              c none).cellContent p = none := by
          intro p hp
          have hnep1 : p ≠ c := by
            intro he
            rw [he] at hp
            exact absurd (hrankc c hp) (lt_irrefl _)
          have hnep2 : p ≠ next := by
            intro he
            rw [he] at hp
            exact absurd (lt_trans hnr (hrankc next hp)) (lt_irrefl _)
          rw [cellContent_set_other
                (st.grid.set next (some (mergedTile tile nextTile next)))
                c p none (by simpa using hinc) hnep1,
              cellContent_set_other st.grid next p
                (some (mergedTile tile nextTile next)) hinn hnep2]
          exact hsuf p (List.mem_cons_of_mem c hp)
        have hpc1 : PC ((st.grid.set next
            (some (mergedTile tile nextTile next))).set c none) := by
          refine pc_set (pc_set hpc hinn ?_) (by simpa using hinc) ?_
          · intro t ht
            injection ht with ht
            rw [← ht]
            exact ⟨rfl, rfl⟩
          · intro t ht
            exact Option.noConfusion ht
        rcases ih (moveStep (getVector d) st c) g0 (by rw [hcase]; exact hpc1)
          (by rw [hcase]; exact hsz)
          (fun p hp => hl p (List.mem_cons_of_mem c hp)) hpw.tail
          (by rw [hcase]; exact hsuf1) rec hrec with h | h
        · rw [hcase] at h
          simp only [List.mem_append, List.mem_singleton] at h
          rcases h with h | h
          · exact Or.inl h
          · right
            subst h
            exact ⟨c, hl c (List.mem_cons_self c l'), hg0c⟩
        · exact Or.inr h

/-! ## prepareGrid and spawnTile facts -/

theorem prepareGrid_flags (g : Grid) :
    ∀ p t, (prepareGrid g).cellContent p = some t → t.mergedFrom = none := by
  intro p t ht
  have hin := InB_of_cellContent_some _ p ht
  rw [cellContent_eq_cells _ p hin] at ht
  have hcell : (prepareGrid g).cells p.x.toNat p.y.toNat
      = (g.cells p.x.toNat p.y.toNat).map
        (fun t => { t with mergedFrom := none,
                           previousPosition := some ⟨t.x, t.y⟩ }) := rfl
  rw [hcell] at ht
  cases hu : g.cells p.x.toNat p.y.toNat with
  | none => rw [hu] at ht; exact Option.noConfusion ht
  | some u =>
      rw [hu] at ht
      injection ht with ht
      rw [← ht]

theorem mem_availableCells {g : Grid} {p : Pos} (h : p ∈ g.availableCells) :
    InB g.size p ∧ g.cellContent p = none
      ∧ p.x = p.x.toNat ∧ p.y = p.y.toNat := by
  unfold Grid.availableCells at h
  rw [List.mem_flatMap] at h
  obtain ⟨x, hx, h⟩ := h
  rw [List.mem_filterMap] at h
  obtain ⟨y, hy, h⟩ := h
  rw [List.mem_range] at hx
  rw [List.mem_range] at hy
  split at h
  · rename_i hnone
    injection h with h
    rw [← h]
    have hin : InB g.size (⟨(x : Int), (y : Int)⟩ : Pos) := by
      refine ⟨?_, ?_, ?_, ?_⟩ <;> simp <;> omega
    refine ⟨hin, ?_, by simp, by simp⟩
    rw [cellContent_eq_cells _ _ hin]
    simpa [Option.isNone_iff_eq_none] using hnone
  · exact Option.noConfusion h

theorem availableCells_ne_nil {g : Grid} {p : Pos} (hin : InB g.size p)
    (hemp : g.cellContent p = none) : g.availableCells ≠ [] := by
  intro hnil
  have hmem : (⟨(p.x.toNat : Int), (p.y.toNat : Int)⟩ : Pos)
      ∈ g.availableCells := by
    unfold Grid.availableCells
    rw [List.mem_flatMap]
    have h1 := hin.1
    have h2 := hin.2.1
    have h3 := hin.2.2.1
    have h4 := hin.2.2.2
    refine ⟨p.x.toNat, List.mem_range.mpr (by omega), ?_⟩
    rw [List.mem_filterMap]
    refine ⟨p.y.toNat, List.mem_range.mpr (by omega), ?_⟩
    rw [cellContent_eq_cells _ _ hin] at hemp
    rw [if_pos (by simpa [Option.isNone_iff_eq_none] using hemp)]
  rw [hnil] at hmem
  exact List.not_mem_nil _ hmem

theorem spawnTile_cases (g : Grid) (pick : Nat) (isTwo : Bool) :
    (g.availableCells.isEmpty = true ∧ spawnTile g pick isTwo = (g, none, [])) ∨
    (∃ p, p ∈ g.availableCells ∧
      spawnTile g pick isTwo =
        (g.set p (some { newTile p (if isTwo then 2 else 4) with
            justSpawned := true }),
         some (p, if isTwo then 2 else 4), [Effect.sound "spawn"])) := by
  unfold spawnTile
  by_cases h : g.availableCells.isEmpty
  · left
    exact ⟨h, by rw [dif_pos h]⟩
  · right
    rw [dif_neg h]
    exact ⟨_, List.get_mem _ _ _, rfl⟩

theorem spawnTile_pc {g : Grid} (hpc : PC g) (pick : Nat) (isTwo : Bool) :
    PC (spawnTile g pick isTwo).1 := by
  rcases spawnTile_cases g pick isTwo with ⟨-, he⟩ | ⟨p, hp, he⟩
  · rw [he]
    exact hpc
  · rw [he]
    obtain ⟨hin, -, -, -⟩ := mem_availableCells hp
    refine pc_set hpc hin ?_
    intro t ht
    injection ht with ht
    rw [← ht]
    exact ⟨rfl, rfl⟩

theorem sumValues_insert (g : Grid) (p : Pos) (t : Tile) (hin : InB g.size p)
    (hkey : g.cells p.x.toNat p.y.toNat = none) :
    sumValues (g.set p (some t)) = sumValues g + t.value := by
  have hm := gridMeasure_set (fun t => t.value) g p hin (some t)
  rw [hkey] at hm
  rw [sumValues_eq_measure, sumValues_eq_measure]
  simpa using hm

theorem spawnTile_sum {g : Grid} {p : Pos} {v : Nat} (pick : Nat) (isTwo : Bool)
    (h : (spawnTile g pick isTwo).2.1 = some (p, v)) :
    sumValues (spawnTile g pick isTwo).1 = sumValues g + v := by
  rcases spawnTile_cases g pick isTwo with ⟨-, he⟩ | ⟨q, hq, he⟩
  · rw [he] at h
    exact Option.noConfusion h
  · rw [he] at h ⊢
    injection h with h
    injection h with h1 h2
    obtain ⟨hin, hemp, -, -⟩ := mem_availableCells hq
    have hkey : g.cells q.x.toNat q.y.toNat = none := by
      rw [← cellContent_eq_cells g q hin]
      exact hemp
    rw [sumValues_insert g q _ hin hkey]
    show sumValues g + (if isTwo then 2 else 4) = sumValues g + v
    rw [h2]

/-- `move` unfolded through `moveFold` (definitional). -/
theorem move_spec (s : GameState) (d pick : Nat) (isTwo : Bool) :
    move s d pick isTwo =
      (if isTerminated s then ⟨s, [], false, [], none⟩
      else if (moveFold s d).moved then
        { state :=
            { s with grid := (spawnTile (moveFold s d).grid pick isTwo).1,
                     score := (moveFold s d).score,
                     bestScore := (moveFold s d).bestScore,
                     won := (moveFold s d).won,
                     over :=
                       !movesAvailable (spawnTile (moveFold s d).grid pick isTwo).1,
                     undoStack :=
                       (if s.undosUsed < 2 then
                         (if (s.undoStack ++ [snapshotState s]).length > 2
                          then (s.undoStack ++ [snapshotState s]).drop 1
                          else s.undoStack ++ [snapshotState s])
                       else s.undoStack),
                     exchangeMode :=
                       (if s.exchangeMode then false else s.exchangeMode),
                     exchangeFirst :=
                       (if s.exchangeMode then none else s.exchangeFirst) },
          effects := (moveFold s d).effects ++ [Effect.sound "move"]
            ++ (spawnTile (moveFold s d).grid pick isTwo).2.2
            ++ (if !movesAvailable (spawnTile (moveFold s d).grid pick isTwo).1
                then [Effect.sound "gameover"] else [])
            ++ [Effect.actuate],
          moved := true, merges := (moveFold s d).merges,
          spawned := (spawnTile (moveFold s d).grid pick isTwo).2.1 }
      else
        { state := { s with grid := (moveFold s d).grid,
                            score := (moveFold s d).score,
                            bestScore := (moveFold s d).bestScore,
                            won := (moveFold s d).won },
          effects := [], moved := false, merges := (moveFold s d).merges,
          spawned := none } : MoveResult) := rfl

theorem spawnTile_some {g : Grid} {p0 : Pos} (pick : Nat) (isTwo : Bool)
    (hin : InB g.size p0) (hemp : g.cellContent p0 = none) :
    ∃ p v, (spawnTile g pick isTwo).2.1 = some (p, v) ∧ (v = 2 ∨ v = 4) := by
  rcases spawnTile_cases g pick isTwo with ⟨hemp2, -⟩ | ⟨q, -, he⟩
  · exact absurd (List.isEmpty_iff.mp hemp2) (availableCells_ne_nil hin hemp)
  · refine ⟨q, if isTwo then 2 else 4, by rw [he], ?_⟩
    cases isTwo <;> simp

theorem sumValues_prepareGrid (g : Grid) :
    sumValues (prepareGrid g) = sumValues g := by
  rw [sumValues_eq_measure, sumValues_eq_measure]
  exact gridMeasure_prepareGrid (fun t => t.value) (fun t mf pp => rfl) g

/-- The master invariants instantiated at the `move` call site. -/
theorem moveFold_facts (s : GameState) (d : Nat) (hd : d < 4)
    (hsz : s.grid.size = s.size) (hpc : PC s.grid) :
    (moveFold s d).grid.size = s.grid.size ∧
    PC (moveFold s d).grid ∧
    sumValues (moveFold s d).grid = sumValues s.grid ∧
    ((moveFold s d).moved = false → moveFold s d = moveInit s) ∧
    (∀ rec ∈ (moveFold s d).merges,
       rec.product.value = 2 * rec.moving.value ∧
       rec.target.value = rec.moving.value ∧
       rec.target.mergedFrom = none ∧
       rec.product.mergedFrom = some (rec.moving.value, rec.target.value) ∧
       (rec.product.value = 2048 → (moveFold s d).won = true ∧
         Effect.sound "win" ∈ (moveFold s d).effects)) ∧
    ((moveFold s d).moved = true → ∃ p, InB s.grid.size p ∧
       (moveFold s d).grid.cellContent p = none) := by
  have hpc0 : PC (moveInit s).grid := pc_prepareGrid hpc
  have hl : ∀ c ∈ traversalCells s.size (getVector d),
      InB (moveInit s).grid.size c := by
    intro c hc
    obtain ⟨hin, -, -⟩ := mem_traversalCells hc
    show InB (prepareGrid s.grid).size c
    rw [prepareGrid_size, hsz]
    exact hin
  obtain ⟨i1, i2, i3, i4, i5, i6, i7, i8, i9⟩ :=
    moveFold_master d hd (traversalCells s.size (getVector d)) (moveInit s)
      hpc0 hl
  have hfold : moveFold s d
      = (traversalCells s.size (getVector d)).foldl (moveStep (getVector d))
        (moveInit s) := rfl
  rw [← hfold] at i1 i2 i3 i4 i5 i6 i7 i8 i9
  have hszp : (moveInit s).grid.size = s.grid.size := prepareGrid_size s.grid
  refine ⟨by rw [i1]; exact hszp, i2, ?_, i4, ?_, ?_⟩
  · rw [i3]
    exact sumValues_prepareGrid s.grid
  · intro rec hrec
    rcases i7 rec hrec with h | h
    · exact absurd h (List.not_mem_nil rec)
    · exact h
  · intro hmv
    have := i8 (fun h => Bool.noConfusion h) hmv
    rw [hszp] at this
    exact this

/-- The untouched-suffix invariant instantiated at the `move` call site:
every merge's moving tile is literally a tile of the prepared pre-move grid. -/
theorem moveFold_moving (s : GameState) (d : Nat) (hd : d < 4)
    (hsz : s.grid.size = s.size) (hpc : PC s.grid) :
    ∀ rec ∈ (moveFold s d).merges, ∃ p, InB s.grid.size p ∧
      (prepareGrid s.grid).cellContent p = some rec.moving := by
  intro rec hrec
  have hg0 : (prepareGrid s.grid).size = s.size := by
    rw [prepareGrid_size, hsz]
  have hl : ∀ c ∈ traversalCells s.size (getVector d),
      InB (prepareGrid s.grid).size c := by
    intro c hc
    obtain ⟨hin, -, -⟩ := mem_traversalCells hc
    rw [hg0]
    exact hin
  have hpw : (traversalCells s.size (getVector d)).Pairwise
      (fun a b => rankOf d (prepareGrid s.grid).size a
        < rankOf d (prepareGrid s.grid).size b) := by
    rw [hg0]
    exact traversal_sorted hd
  have hrun := moveFold_untouched d hd (traversalCells s.size (getVector d))
    (moveInit s) (prepareGrid s.grid) (pc_prepareGrid hpc) rfl hl hpw
    (fun p _ => Or.inl rfl) rec hrec
  rcases hrun with h | ⟨p, hin, hp⟩
  · exact absurd h (List.not_mem_nil rec)
  · refine ⟨p, ?_, hp⟩
    rw [hg0, ← hsz] at hin
    exact hin

/-! ## Undo restore lemmas -/

theorem set_natpos_cells (g : Grid) (a b : Nat) (v : Option Tile) (i j : Nat) :
    (g.set ⟨(a : Int), (b : Int)⟩ v).cells i j
      = if i = a ∧ j = b then v else g.cells i j := by
  rw [set_cells]
  simp

theorem restoreStep_frame (snap : Snapshot) (acc : Grid × List PoolEntry)
    (p : Nat × Nat) (i j : Nat) (h : ¬(i = p.1 ∧ j = p.2)) :
    (restoreStep snap acc p).1.cells i j = acc.1.cells i j := by
  unfold restoreStep
  split
  · rfl
  · split
    · split <;> simp [set_natpos_cells, h]
    · simp [set_natpos_cells, h]

theorem restoreStep_val (snap : Snapshot) (acc : Grid × List PoolEntry)
    (p : Nat × Nat) :
    ((restoreStep snap acc p).1.cells p.1 p.2).map (·.value)
      = match snap.cells p.1 p.2 with
        | none => (acc.1.cells p.1 p.2).map (·.value)
        | some v => some v := by
  unfold restoreStep
  split
  · rfl
  · split
    · split <;> simp [set_natpos_cells, newTile]
    · simp [set_natpos_cells, newTile]

theorem restoreStep_size (snap : Snapshot) (acc : Grid × List PoolEntry)
    (p : Nat × Nat) : (restoreStep snap acc p).1.size = acc.1.size := by
  unfold restoreStep
  split
  · rfl
  · split
    · split <;> rfl
    · rfl

theorem restoreStep_pc (snap : Snapshot) (acc : Grid × List PoolEntry)
    (p : Nat × Nat) (h1 : p.1 < acc.1.size) (h2 : p.2 < acc.1.size)
    (hpc : PC acc.1) : PC (restoreStep snap acc p).1 := by
  have hin : InB acc.1.size ⟨(p.1 : Int), (p.2 : Int)⟩ := by
    refine ⟨?_, ?_, ?_, ?_⟩ <;> simp <;> omega
  unfold restoreStep
  split
  · exact hpc
  · split
    · split
      · refine pc_set hpc hin ?_
        intro t ht
        injection ht with ht
        rw [← ht]
        exact ⟨rfl, rfl⟩
      · refine pc_set hpc hin ?_
        intro t ht
        injection ht with ht
        rw [← ht]
        exact ⟨rfl, rfl⟩
    · refine pc_set hpc hin ?_
      intro t ht
      injection ht with ht
      rw [← ht]
      exact ⟨rfl, rfl⟩

theorem restoreFold_frame (snap : Snapshot) :
    ∀ (L : List (Nat × Nat)) (acc : Grid × List PoolEntry) (i j : Nat),
      (∀ p ∈ L, ¬(i = p.1 ∧ j = p.2)) →
      (L.foldl (restoreStep snap) acc).1.cells i j = acc.1.cells i j := by
  intro L
  induction L with
  | nil => intro acc i j _; rfl
  | cons q L' ih =>
      intro acc i j h
      rw [List.foldl_cons, ih _ i j (fun p hp => h p (List.mem_cons_of_mem q hp)),
        restoreStep_frame snap acc q i j (h q (List.mem_cons_self q L'))]

theorem restoreFold_size (snap : Snapshot) :
    ∀ (L : List (Nat × Nat)) (acc : Grid × List PoolEntry),
      (L.foldl (restoreStep snap) acc).1.size = acc.1.size := by
  intro L
  induction L with
  | nil => intro acc; rfl
  | cons q L' ih =>
      intro acc
      rw [List.foldl_cons, ih, restoreStep_size]

theorem restoreFold_pc (snap : Snapshot) :
    ∀ (L : List (Nat × Nat)) (acc : Grid × List PoolEntry),
      (∀ p ∈ L, p.1 < acc.1.size ∧ p.2 < acc.1.size) → PC acc.1 →
      PC (L.foldl (restoreStep snap) acc).1 := by
  intro L
  induction L with
  | nil => intro acc _ hpc; exact hpc
  | cons q L' ih =>
      intro acc hL hpc
      rw [List.foldl_cons]
      refine ih _ ?_ ?_
      · intro p hp
        rw [restoreStep_size]
        exact hL p (List.mem_cons_of_mem q hp)
      · obtain ⟨h1, h2⟩ := hL q (List.mem_cons_self q L')
        exact restoreStep_pc snap acc q h1 h2 hpc

theorem restoreFold_val (snap : Snapshot) :
    ∀ (L : List (Nat × Nat)) (acc : Grid × List PoolEntry), L.Nodup →
      ∀ p ∈ L, acc.1.cells p.1 p.2 = none →
      ((L.foldl (restoreStep snap) acc).1.cells p.1 p.2).map (·.value)
        = snap.cells p.1 p.2 := by
  intro L
  induction L with
  | nil =>
      intro acc _ p hp
      exact absurd hp (List.not_mem_nil p)
  | cons q L' ih =>
      intro acc hnd p hp hemp
      rw [List.foldl_cons]
      rcases List.mem_cons.mp hp with rfl | hp'
      · have hout : ∀ r ∈ L', ¬(p.1 = r.1 ∧ p.2 = r.2) := by
          intro r hr hpr
          have : p = r := Prod.ext hpr.1 hpr.2
          rw [this] at hnd
          exact (List.nodup_cons.mp hnd).1 hr
        rw [restoreFold_frame snap L' _ p.1 p.2 hout, restoreStep_val]
        cases hs : snap.cells p.1 p.2 with
        | none => rw [hemp]; rfl
        | some v => rfl
      · have hqp : ¬(p.1 = q.1 ∧ p.2 = q.2) := by
          intro hpr
          have : p = q := Prod.ext hpr.1 hpr.2
          rw [this] at hp'
          exact (List.nodup_cons.mp hnd).1 hp'
        refine ih _ (List.nodup_cons.mp hnd).2 p hp' ?_
        rw [restoreStep_frame snap acc q p.1 p.2 ?_]
        · exact hemp
        · intro hh
          exact hqp hh

theorem restorePositions_mem {n : Nat} {p : Nat × Nat} :
    p ∈ restorePositions n ↔ p.1 < n ∧ p.2 < n := by
  unfold restorePositions
  rw [List.mem_flatMap]
  constructor
  · rintro ⟨rx, hrx, hm⟩
    rw [List.mem_map] at hm
    obtain ⟨ry, hry, rfl⟩ := hm
    exact ⟨List.mem_range.mp hrx, List.mem_range.mp hry⟩
  · rintro ⟨h1, h2⟩
    refine ⟨p.1, List.mem_range.mpr h1, ?_⟩
    rw [List.mem_map]
    exact ⟨p.2, List.mem_range.mpr h2, rfl⟩

theorem restorePositions_nodup (n : Nat) : (restorePositions n).Nodup := by
  unfold restorePositions
  rw [List.nodup_flatMap]
  constructor
  · intro rx _
    exact (List.nodup_range n).map (fun a b hab => by injection hab)
  · refine (List.pairwise_lt_range n).imp ?_
    intro a b hab q hq1 hq2
    rw [List.mem_map] at hq1 hq2
    obtain ⟨ra, -, rfl⟩ := hq1
    obtain ⟨rb, -, hq⟩ := hq2
    injection hq with hq1 hq2
    omega

/-! ## Claim theorems -/

theorem emptyGrid_pc (n : Nat) : PC (emptyGrid n) := by
  intro i j _ _ t ht
  exact Option.noConfusion ht

theorem doExchange_pc (g : Grid) (p1 p2 : Pos) (hpc : PC g)
    (h1 : InB g.size p1) (h2 : InB g.size p2) : PC (doExchange g p1 p2).1 := by
  unfold doExchange
  refine pc_set (pc_set hpc h2 ?_) (by simpa using h1) ?_
  · intro t ht
    rcases hg : g.cells p1.x.toNat p1.y.toNat with _ | u
    · rw [hg] at ht
      exact Option.noConfusion ht
    · rw [hg] at ht
      injection ht with ht
      rw [← ht]
      exact ⟨rfl, rfl⟩
  · intro t ht
    rcases hg : g.cells p2.x.toNat p2.y.toNat with _ | u
    · rw [hg] at ht
      exact Option.noConfusion ht
    · rw [hg] at ht
      injection ht with ht
      rw [← ht]
      exact ⟨rfl, rfl⟩

theorem undo_pc (s2 : GameState) (hpc2 : PC s2.grid) : PC (undo s2).1.grid := by
  unfold undo
  by_cases hterm : isTerminated s2 = true
  · rw [if_pos hterm]
    exact hpc2
  · rw [if_neg hterm]
    by_cases hcond : (s2.undoStack.length = 0 || s2.undosUsed ≥ 2) = true
    · rw [if_pos hcond]
      exact hpc2
    · rw [if_neg hcond]
      cases hgl : s2.undoStack.getLast? with
      | none => exact hpc2
      | some snap =>
          show PC (((restorePositions s2.size).foldl (restoreStep snap)
            (emptyGrid s2.size, collectPool s2.grid)).1)
          refine restoreFold_pc snap _ _ ?_ (emptyGrid_pc s2.size)
          intro p hp
          exact restorePositions_mem.mp hp

/-- C2: position consistency — every tile reachable at `grid[x][y]` records
position (x, y); at most one tile per cell holds by the array representation
itself — is preserved by every grid-mutating operation: a full move (slide,
merge and spawn), a standalone spawn, the exchange swap, and the undo
restore. -/
theorem grid_invariants_preserved
    (s : GameState) (d pick : Nat) (isTwo : Bool) (hd : d < 4)
    (hsz : s.grid.size = s.size) (hpc : s.grid.posConsistent = true)
    (g : Grid) (hg : g.posConsistent = true)
    (p1 p2 : Pos) (h1 : InB g.size p1) (h2 : InB g.size p2)
    (s2 : GameState) (hpc2 : s2.grid.posConsistent = true) :
    (move s d pick isTwo).state.grid.posConsistent = true ∧
    (spawnTile g pick isTwo).1.posConsistent = true ∧
    (doExchange g p1 p2).1.posConsistent = true ∧
    (undo s2).1.grid.posConsistent = true := by
  refine ⟨?_, (pc_iff _).mpr (spawnTile_pc ((pc_iff _).mp hg) pick isTwo),
    (pc_iff _).mpr (doExchange_pc g p1 p2 ((pc_iff _).mp hg) h1 h2),
    (pc_iff _).mpr (undo_pc s2 ((pc_iff _).mp hpc2))⟩
  rw [move_spec]
  obtain ⟨f1, f2, f3, f4, f5, f6⟩ := moveFold_facts s d hd hsz ((pc_iff _).mp hpc)
  by_cases hterm : isTerminated s = true
  · rw [if_pos hterm]
    exact hpc
  · rw [if_neg hterm]
    by_cases hm2 : (moveFold s d).moved = true
    · rw [if_pos hm2]
      exact (pc_iff _).mpr (spawnTile_pc f2 pick isTwo)
    · rw [if_neg hm2]
      exact (pc_iff _).mpr f2

set_option maxRecDepth 400000 in
/-- C2 witness: the invariant holds after a concrete merging move, spawn,
exchange swap and undo restore. -/
theorem grid_invariants_preserved_witness :
    (move (baseState (rowGrid [some 2, some 2, none, none])) 3 0
      true).state.grid.posConsistent = true ∧
    (doExchange (rowGrid [some 2, some 2, none, none]) ⟨0, 0⟩
      ⟨1, 0⟩).1.posConsistent = true := by
  have h := grid_invariants_preserved
    (baseState (rowGrid [some 2, some 2, none, none])) 3 0 true (by decide)
    (by decide) (by decide)
    (rowGrid [some 2, some 2, none, none]) (by decide)
    ⟨0, 0⟩ ⟨1, 0⟩ (by decide) (by decide)
    (baseState (rowGrid [some 2, some 2, none, none])) (by decide)
  exact ⟨h.1, h.2.2.1⟩

/-- C3: a move that reports `moved = true` spawns exactly one tile of value
2 or 4, and the total tile value afterwards is the total before the move
plus that spawned value — slides move mass and each merge replaces two
tiles of value v by one tile of value 2·v, so the merges themselves conserve
mass (per-merge: product = 2 × moving input, target input equals moving
input). -/
theorem move_conserves_tile_mass (s : GameState) (d pick : Nat) (isTwo : Bool)
    (hd : d < 4) (hsz : s.grid.size = s.size)
    (hpc : s.grid.posConsistent = true)
    (hmv : (move s d pick isTwo).moved = true) :
    ∃ p v, (move s d pick isTwo).spawned = some (p, v) ∧ (v = 2 ∨ v = 4) ∧
      sumValues (move s d pick isTwo).state.grid = sumValues s.grid + v ∧
      ∀ rec ∈ (move s d pick isTwo).merges,
        rec.product.value = 2 * rec.moving.value ∧
        rec.target.value = rec.moving.value := by
  rw [move_spec] at hmv ⊢
  by_cases hterm : isTerminated s = true
  · rw [if_pos hterm] at hmv
    exact Bool.noConfusion hmv
  · rw [if_neg hterm] at hmv ⊢
    obtain ⟨f1, f2, f3, f4, f5, f6⟩ :=
      moveFold_facts s d hd hsz ((pc_iff _).mp hpc)
    by_cases hm2 : (moveFold s d).moved = true
    · rw [if_pos hm2]
      obtain ⟨p0, hin0, hemp0⟩ := f6 hm2
      obtain ⟨p, v, hsp, hv⟩ := @spawnTile_some (moveFold s d).grid p0 pick
        isTwo (by rw [f1]; exact hin0) hemp0
      refine ⟨p, v, hsp, hv, ?_, ?_⟩
      · show sumValues (spawnTile (moveFold s d).grid pick isTwo).1 = _
        rw [spawnTile_sum pick isTwo hsp, f3]
      · intro rec hrec
        have hw := f5 rec hrec
        exact ⟨hw.1, hw.2.1⟩
    · rw [if_neg hm2] at hmv
      exact Bool.noConfusion hmv

set_option maxRecDepth 400000 in
/-- C3 witness: merging the row [2, _, 2, _] leftwards gives a single 4 and
one spawned tile; the board mass rises by exactly the spawned value. -/
theorem move_conserves_tile_mass_witness :
    ∃ p v, (move (baseState (rowGrid [some 2, none, some 2, none])) 3 0
        true).spawned = some (p, v) ∧ (v = 2 ∨ v = 4) ∧
      sumValues (move (baseState (rowGrid [some 2, none, some 2, none])) 3 0
        true).state.grid
        = sumValues (rowGrid [some 2, none, some 2, none]) + v ∧
      ∀ rec ∈ (move (baseState (rowGrid [some 2, none, some 2, none])) 3 0
        true).merges,
        rec.product.value = 2 * rec.moving.value ∧
        rec.target.value = rec.moving.value :=
  move_conserves_tile_mass (baseState (rowGrid [some 2, none, some 2, none]))
    3 0 true (by decide) (by decide) (by decide) (by decide)

set_option maxRecDepth 400000 in
/-- C4: merge provenance — after `prepareGrid` every tile's merged-flag is
cleared; every merge performed during a move consumes a moving tile that is
literally a tile of the prepared pre-move grid (hence not created by a merge
of this move) and a target whose merged-flag is unset, while the product
carries the merged-from tag; concretely, [2, 2, 4] moved toward its head
yields [4, 4] with score 4, never [8]. -/
theorem no_merge_of_merged_tile (s : GameState) (d pick : Nat) (isTwo : Bool)
    (hd : d < 4) (hsz : s.grid.size = s.size)
    (hpc : s.grid.posConsistent = true) :
    (∀ p t, (prepareGrid s.grid).cellContent p = some t →
       t.mergedFrom = none) ∧
    (∀ rec ∈ (move s d pick isTwo).merges,
      rec.moving.mergedFrom = none ∧
      rec.target.mergedFrom = none ∧
      rec.product.mergedFrom = some (rec.moving.value, rec.target.value) ∧
      ∃ p, InB s.grid.size p ∧
        (prepareGrid s.grid).cellContent p = some rec.moving) ∧
    (cellValue (move (baseState (rowGrid [some 2, some 2, some 4, none])) 3 0
        true).state.grid 0 0 = some 4 ∧
     cellValue (move (baseState (rowGrid [some 2, some 2, some 4, none])) 3 0
        true).state.grid 1 0 = some 4 ∧
     cellValue (move (baseState (rowGrid [some 2, some 2, some 4, none])) 3 0
        true).state.grid 2 0 = none ∧
     cellValue (move (baseState (rowGrid [some 2, some 2, some 4, none])) 3 0
        true).state.grid 3 0 = none ∧
     (move (baseState (rowGrid [some 2, some 2, some 4, none])) 3 0
        true).state.score = 4) := by
  refine ⟨prepareGrid_flags s.grid, ?_, by decide⟩
  intro rec hrec
  have hmem : rec ∈ (moveFold s d).merges := by
    rw [move_spec] at hrec
    by_cases hterm : isTerminated s = true
    · rw [if_pos hterm] at hrec
      exact absurd hrec (List.not_mem_nil rec)
    · rw [if_neg hterm] at hrec
      by_cases hm2 : (moveFold s d).moved = true
      · rw [if_pos hm2] at hrec
        exact hrec
      · rw [if_neg hm2] at hrec
        exact hrec
  obtain ⟨p, hin, hp⟩ := moveFold_moving s d hd hsz ((pc_iff _).mp hpc) rec hmem
  have hw := (moveFold_facts s d hd hsz ((pc_iff _).mp hpc)).2.2.2.2.1 rec hmem
  exact ⟨prepareGrid_flags s.grid p rec.moving hp, hw.2.2.1, hw.2.2.2.1,
    p, hin, hp⟩

set_option maxRecDepth 400000 in
/-- C4 witness: the theorem applied to the [2, 2, 4] scenario. -/
theorem no_merge_of_merged_tile_witness :
    cellValue (move (baseState (rowGrid [some 2, some 2, some 4, none])) 3 0
      true).state.grid 0 0 = some 4 ∧
    cellValue (move (baseState (rowGrid [some 2, some 2, some 4, none])) 3 0
      true).state.grid 1 0 = some 4 ∧
    cellValue (move (baseState (rowGrid [some 2, some 2, some 4, none])) 3 0
      true).state.grid 2 0 = none :=
  have h := no_merge_of_merged_tile
    (baseState (rowGrid [some 2, some 2, some 4, none])) 3 0 true (by decide)
    (by decide) (by decide)
  ⟨h.2.2.1, h.2.2.2.1, h.2.2.2.2.1⟩

/-- C5: `undo` is a strict no-op whenever the game is terminated, the
snapshot stack is empty, or two undos were already used; otherwise it pops
the most recent retained snapshot and restores its per-cell tile values,
score and over/won flags exactly, consuming one of the at most two undos. -/
theorem undo_restores_snapshot_and_caps (s : GameState) :
    ((isTerminated s = true ∨ s.undoStack = [] ∨ 2 ≤ s.undosUsed) →
      undo s = (s, [])) ∧
    (∀ snap rest, s.undoStack = rest ++ [snap] →
      isTerminated s = false → s.undosUsed < 2 →
      (∀ i j, i < s.size → j < s.size →
        cellValue (undo s).1.grid i j = snap.cells i j) ∧
      (undo s).1.score = snap.score ∧
      (undo s).1.over = snap.over ∧
      (undo s).1.won = snap.won ∧
      (undo s).1.undoStack = rest ∧
      (undo s).1.undosUsed = s.undosUsed + 1 ∧
      (undo s).1.undosUsed ≤ 2 ∧
      (undo s).2 = [Effect.sound "undo", Effect.actuate]) := by
  constructor
  · intro hguard
    unfold undo
    by_cases hterm : isTerminated s = true
    · rw [if_pos hterm]
    · rw [if_neg hterm]
      have hcond : (s.undoStack.length = 0 || s.undosUsed ≥ 2) = true := by
        rcases hguard with h | h | h
        · exact absurd h hterm
        · simp [h]
        · simp [h]
      rw [if_pos hcond]
  · intro snap rest hstack hterm hu2
    unfold undo
    rw [if_neg (by rw [hterm]; exact Bool.noConfusion)]
    have hcond : (s.undoStack.length = 0 || s.undosUsed ≥ 2) = false := by
      rw [hstack]
      simp
      omega
    rw [if_neg (by rw [hcond]; exact Bool.noConfusion)]
    rw [hstack, List.getLast?_concat]
    rw [← hstack]
    have hdrop : s.undoStack.dropLast = rest := by
      rw [hstack]
      exact List.dropLast_concat
    refine ⟨?_, rfl, rfl, rfl, by rw [hdrop], rfl,
      by show s.undosUsed + 1 ≤ 2; omega, rfl⟩
    intro i j hi hj
    show ((((restorePositions s.size).foldl (restoreStep snap)
      (emptyGrid s.size, collectPool s.grid)).1.cells i j).map (·.value))
      = snap.cells i j
    exact restoreFold_val snap (restorePositions s.size) _
      (restorePositions_nodup s.size) (i, j)
      (restorePositions_mem.mpr ⟨hi, hj⟩) rfl

/-- C5 witness: with one snapshot on the stack and no undos used, `undo`
restores the snapshot's values, score and flags and consumes one undo. -/
theorem undo_restores_witness :
    cellValue (undo { baseState (rowGrid [some 4, none, none, none]) with
        undoStack := [snapshotState
          (baseState (rowGrid [some 2, some 2, none, none]))] }).1.grid 0 0
      = some 2 ∧
    (undo { baseState (rowGrid [some 4, none, none, none]) with
        undoStack := [snapshotState
          (baseState (rowGrid [some 2, some 2, none, none]))] }).1.undosUsed
      = 1 ∧
    (undo { baseState (rowGrid [some 4, none, none, none]) with
        undoStack := [snapshotState
          (baseState (rowGrid [some 2, some 2, none, none]))] }).1.score = 0 := by
  have h := (undo_restores_snapshot_and_caps
    { baseState (rowGrid [some 4, none, none, none]) with
        undoStack := [snapshotState
          (baseState (rowGrid [some 2, some 2, none, none]))] }).2
    (snapshotState (baseState (rowGrid [some 2, some 2, none, none]))) []
    rfl rfl (by decide)
  refine ⟨?_, h.2.2.2.2.2.1, by rw [h.2.1]; rfl⟩
  rw [h.1 0 0 (by decide) (by decide)]
  decide

/-- C1: a `move(d)` call that reports `moved = false` changes nothing
observable: per-cell tile values and occupancy, score, best score, the
over/won flags, the undo stack and counters, and the exchange budget are
exactly as before; no tile is spawned, and no sound, game-over check or
render effect is emitted (the effect log is empty). -/
theorem move_noop_is_frame_preserving (s : GameState) (d pick : Nat)
    (isTwo : Bool) (hd : d < 4) (hsz : s.grid.size = s.size)
    (hpc : s.grid.posConsistent = true)
    (hmv : (move s d pick isTwo).moved = false) :
    (∀ i j, cellValue (move s d pick isTwo).state.grid i j
       = cellValue s.grid i j) ∧
    (move s d pick isTwo).state.score = s.score ∧
    (move s d pick isTwo).state.bestScore = s.bestScore ∧
    (move s d pick isTwo).state.over = s.over ∧
    (move s d pick isTwo).state.won = s.won ∧
    (move s d pick isTwo).state.undoStack = s.undoStack ∧
    (move s d pick isTwo).state.undosUsed = s.undosUsed ∧
    (move s d pick isTwo).state.exchangesUsed = s.exchangesUsed ∧
    (move s d pick isTwo).spawned = none ∧
    (move s d pick isTwo).effects = [] := by
  rw [move_spec] at hmv ⊢
  by_cases hterm : isTerminated s = true
  · rw [if_pos hterm]
    exact ⟨fun i j => rfl, rfl, rfl, rfl, rfl, rfl, rfl, rfl, rfl, rfl⟩
  · rw [if_neg hterm] at hmv ⊢
    by_cases hm2 : (moveFold s d).moved = true
    · rw [if_pos hm2] at hmv
      exact Bool.noConfusion hmv
    · have hmf : (moveFold s d).moved = false := by
        revert hm2
        cases (moveFold s d).moved <;> simp
      rw [if_neg hm2]
      obtain ⟨f1, f2, f3, f4, f5, f6⟩ :=
        moveFold_facts s d hd hsz ((pc_iff _).mp hpc)
      rw [f4 hmf]
      refine ⟨?_, rfl, rfl, rfl, rfl, rfl, rfl, rfl, rfl, rfl⟩
      intro i j
      show cellValue (prepareGrid s.grid) i j = cellValue s.grid i j
      exact prepareGrid_cellValue s.grid i j

set_option maxRecDepth 100000 in
/-- C1 witness: a lone tile in the corner pushed toward that corner does not
move; the call leaves score untouched and performs no effect. -/
theorem move_noop_is_frame_preserving_witness :
    (move (baseState (rowGrid [some 2, none, none, none])) 3 0 true).state.score
      = 0 ∧
    (move (baseState (rowGrid [some 2, none, none, none])) 3 0 true).effects
      = [] ∧
    cellValue
      (move (baseState (rowGrid [some 2, none, none, none])) 3 0 true).state.grid
      0 0 = some 2 := by
  have h := move_noop_is_frame_preserving
    (baseState (rowGrid [some 2, none, none, none])) 3 0 true (by decide)
    (by decide) (by decide) (by decide)
  exact ⟨h.2.1, h.2.2.2.2.2.2.2.2.2, by rw [h.1 0 0]; decide⟩

/-! ## The exchange contract (C6) and the dwell-window bug (C7) -/

theorem doExchange_val1 (g : Grid) (p1 p2 : Pos) :
    cellValue (doExchange g p1 p2).1 p1.x.toNat p1.y.toNat
      = cellValue g p2.x.toNat p2.y.toNat := by
  show cellValue ((g.set p2 _).set p1 _) _ _ = _
  unfold cellValue
  rw [set_cells_self]
  cases g.cells p2.x.toNat p2.y.toNat <;> rfl

theorem doExchange_val2 (g : Grid) (p1 p2 : Pos)
    (h1 : InB g.size p1) (h2 : InB g.size p2) (hne : p1 ≠ p2) :
    cellValue (doExchange g p1 p2).1 p2.x.toNat p2.y.toNat
      = cellValue g p1.x.toNat p1.y.toNat := by
  show cellValue ((g.set p2 _).set p1 _) _ _ = _
  unfold cellValue
  rw [set_cells_other _ _ _ _ _ (key_injective h2 h1 (Ne.symm hne)),
    set_cells_self]
  cases g.cells p1.x.toNat p1.y.toNat <;> rfl

theorem doExchange_frame (g : Grid) (p1 p2 : Pos)
    (h1 : InB g.size p1) (h2 : InB g.size p2) (q : Pos)
    (hq1 : q ≠ p1) (hq2 : q ≠ p2) :
    (doExchange g p1 p2).1.cellContent q = g.cellContent q := by
  show ((g.set p2 _).set p1 _).cellContent q = _
  rw [cellContent_set_other _ p1 q _ ?hp1 hq1,
    cellContent_set_other _ p2 q _ h2 hq2]
  exact h1

/-- C6: the exchange contract — the toggle is rejected (strict no-op) once
two exchanges are used, when the game is terminated, or while a swap is
pending; re-clicking the selected tile deselects it without consuming a
use; and the committed swap exchanges only the two chosen tiles'
coordinates (values travel with the tiles), leaves every other cell
untouched, consumes exactly one use, resets the exchange-mode fields and
emits the swap sound and a redraw. -/
theorem exchange_swap_contract (s : GameState) :
    ((isTerminated s = true ∨ 2 ≤ s.exchangesUsed ∨ s.exchangePending = true) →
      exchangeToggle s = (s, [])) ∧
    (∀ p t, s.exchangeMode = true → isTerminated s = false →
      s.exchangePending = false → s.exchangeFirst = some p →
      s.grid.cellContent p = some t →
      handleTileClick s p = ({ s with exchangeFirst := none },
        [Effect.stopPowerUp, Effect.actuate]) ∧
      (handleTileClick s p).1.exchangesUsed = s.exchangesUsed) ∧
    (∀ p1 p2, s.exchangeFirst = some p1 → s.exchangeSecond = some p2 →
      InB s.grid.size p1 → InB s.grid.size p2 → p1 ≠ p2 →
      ∃ s1 fx, exchangeCommit s = some (s1, fx) ∧
        cellValue s1.grid p1.x.toNat p1.y.toNat
          = cellValue s.grid p2.x.toNat p2.y.toNat ∧
        cellValue s1.grid p2.x.toNat p2.y.toNat
          = cellValue s.grid p1.x.toNat p1.y.toNat ∧
        (∀ q, q ≠ p1 → q ≠ p2 →
          s1.grid.cellContent q = s.grid.cellContent q) ∧
        s1.exchangesUsed = s.exchangesUsed + 1 ∧
        s1.exchangeMode = false ∧ s1.exchangePending = false ∧
        s1.exchangeFirst = none ∧ s1.exchangeSecond = none ∧
        fx = [Effect.sound "swap", Effect.actuate]) := by
  refine ⟨?_, ?_, ?_⟩
  · intro hguard
    unfold exchangeToggle
    by_cases hterm : isTerminated s = true
    · rw [if_pos hterm]
    · rw [if_neg hterm]
      by_cases hused : s.exchangesUsed ≥ 2
      · rw [if_pos hused]
      · rw [if_neg hused]
        have hpend : s.exchangePending = true := by
          rcases hguard with h | h | h
          · exact absurd h hterm
          · exact absurd h hused
          · exact h
        rw [if_pos hpend]
  · intro p t hmode hterm hpend hfirst hcell
    have hcl : handleTileClick s p = ({ s with exchangeFirst := none },
        [Effect.stopPowerUp, Effect.actuate]) := by
      unfold handleTileClick
      rw [hmode, hterm, hpend]
      rw [if_neg (by exact Bool.noConfusion),
        if_neg (by exact Bool.noConfusion)]
      rw [hcell, hfirst]
      show (if p = p then _ else _) = _
      rw [if_pos rfl]
    exact ⟨hcl, by rw [hcl]⟩
  · intro p1 p2 hfirst hsecond h1 h2 hne
    unfold exchangeCommit
    rw [hfirst, hsecond]
    exact ⟨_, _, rfl, doExchange_val1 s.grid p1 p2,
      doExchange_val2 s.grid p1 p2 h1 h2 hne,
      fun q hq1 hq2 => doExchange_frame s.grid p1 p2 h1 h2 q hq1 hq2,
      rfl, rfl, rfl, rfl, rfl, rfl⟩

/-- C6 witness: with (0,0) selected and (1,0) confirmed on the demo board the
commit swaps the values 2 and 4 and consumes one of the two uses. -/
theorem exchange_swap_contract_witness :
    ∃ s1 fx,
      exchangeCommit pendingSwapState = some (s1, fx) ∧
      cellValue s1.grid 0 0 = some 4 ∧
      cellValue s1.grid 1 0 = some 2 ∧
      s1.exchangesUsed = 1 := by
  have h := (exchange_swap_contract pendingSwapState).2.2
    ⟨0, 0⟩ ⟨1, 0⟩ rfl rfl (by decide) (by decide) (by decide)
  obtain ⟨s1, fx, hc, hv1, hv2, -, hu, -⟩ := h
  exact ⟨s1, fx, hc, hv1.trans (by decide), hv2.trans (by decide), hu⟩

set_option maxRecDepth 400000 in
/-- C7 (bug exhibit): with a swap pending between (0,0) and (1,0), a
successful move nulls `_exchangeFirst` and clears `_exchangeMode` — the
exchange-cancel branch of `move` does not check `_exchangePending` — while
`_exchangePending` stays true; the already-scheduled 620 ms callback then
calls `_doExchange(null, second)`, which throws on `pos1.x` (modelled by
`exchangeCommit` returning `none`), so the swap is lost and the pending flag
is stuck true, locking out further exchanges and undos of the swap. -/
theorem pending_swap_corrupted_by_move :
    (move pendingSwapState 1 0 true).moved = true ∧
    (move pendingSwapState 1 0 true).state.exchangePending = true ∧
    (move pendingSwapState 1 0 true).state.exchangeSecond = some ⟨1, 0⟩ ∧
    (move pendingSwapState 1 0 true).state.exchangeFirst = none ∧
    (move pendingSwapState 1 0 true).state.exchangeMode = false ∧
    (exchangeCommit (move pendingSwapState 1 0 true).state).isNone = true := by
  decide

/-! ## The particle pool cap (C8) and tier resolution (C9) -/

theorem cullPool_le (q : List Nat) :
    (SpaceEffects.cullPool q).length ≤ SpaceEffects.MAX_PARTICLES := by
  unfold SpaceEffects.cullPool
  split
  · rename_i hgt
    rw [List.length_drop]
    omega
  · rename_i hle
    omega

set_option maxRecDepth 10000 in
/-- C8 counterexample: on a full pool of 200 particles, the undo fission
effect `triggerSplit` pushes its 70 + 70 + 40 particles with no cap check
(pool length 380), and the delayed double-burst second wave pushes its
capped-at-18 burst with no cap check (pool length 218): the pool exceeds
`MAX_PARTICLES` at an observable point, contradicting the claim for those
two spawn paths. -/
theorem particle_cap_counterexample :
    SpaceEffects.MAX_PARTICLES <
      (SpaceEffects.triggerSplitPool (List.replicate 200 90) 90 90 65).length ∧
    SpaceEffects.MAX_PARTICLES <
      (SpaceEffects.secondWave (List.replicate 200 90) 80 40).length := by
  decide

/-- C8 (amended): the cap is enforced on the first wave of `trigger` — its
spawn count is clamped to the remaining budget, so a pool within the cap
stays within it — and at the top of every simulation frame, where `step`
evicts the oldest particles down to `MAX_PARTICLES` before aging the rest;
the uncapped second-wave and `triggerSplit` pushes can therefore exceed the
cap only transiently, until the next frame. -/
theorem particle_cap_amended (pool : List Nat) (count life : Nat)
    (h : pool.length ≤ SpaceEffects.MAX_PARTICLES) :
    (SpaceEffects.firstWave pool count life).length
      ≤ SpaceEffects.MAX_PARTICLES ∧
    (∀ q : List Nat,
      (SpaceEffects.stepPool q).length ≤ SpaceEffects.MAX_PARTICLES) := by
  constructor
  · unfold SpaceEffects.firstWave
    simp only [List.length_append, List.length_replicate]
    omega
  · intro q
    calc (SpaceEffects.stepPool q).length
        ≤ (SpaceEffects.cullPool q).length :=
          List.length_filterMap_le _ _
      _ ≤ SpaceEffects.MAX_PARTICLES := cullPool_le q

set_option maxRecDepth 10000 in
/-- C8 witness: a pool of 150 stays within the cap through a first wave of
100 requested particles, and one frame after a full-pool `triggerSplit` the
pool is back at the cap. -/
theorem particle_cap_amended_witness :
    (List.replicate 150 5).length ≤ SpaceEffects.MAX_PARTICLES ∧
    (SpaceEffects.firstWave (List.replicate 150 5) 100 30).length
      ≤ SpaceEffects.MAX_PARTICLES ∧
    (SpaceEffects.stepPool
      (SpaceEffects.triggerSplitPool (List.replicate 200 90) 90 90 65)).length
      ≤ SpaceEffects.MAX_PARTICLES := by
  have h := particle_cap_amended (List.replicate 150 5) 100 30 (by decide)
  exact ⟨by decide, h.1, h.2 _⟩

theorem getTierScan_spec (v : Int) (l : List Nat)
    (hpw : l.Pairwise fun a b => b < a) :
    (SpaceEffects.getTier.getTierScan v l ∈ l ∨
      SpaceEffects.getTier.getTierScan v l = 2) ∧
    (∀ k ∈ l, (k : Int) ≤ v →
      (SpaceEffects.getTier.getTierScan v l : Int) ≤ v ∧
      k ≤ SpaceEffects.getTier.getTierScan v l) ∧
    ((∀ k ∈ l, v < (k : Int)) → SpaceEffects.getTier.getTierScan v l = 2) := by
  induction l with
  | nil =>
      refine ⟨Or.inr rfl, ?_, fun _ => rfl⟩
      intro k hk
      exact absurd hk (List.not_mem_nil k)
  | cons a rest ih =>
      have hrel : ∀ b ∈ rest, b < a := fun b hb =>
        List.rel_of_pairwise_cons hpw hb
      have ih' := ih hpw.of_cons
      have hstep : SpaceEffects.getTier.getTierScan v (a :: rest) =
          if v ≥ (a : Int) then a
          else SpaceEffects.getTier.getTierScan v rest := rfl
      by_cases hk : (a : Int) ≤ v
      · rw [hstep, if_pos hk]
        refine ⟨Or.inl (List.mem_cons_self a rest), ?_, ?_⟩
        · intro k hkmem hkle
          refine ⟨hk, ?_⟩
          rcases List.mem_cons.mp hkmem with rfl | hmem
          · exact le_refl _
          · exact le_of_lt (hrel k hmem)
        · intro hall
          exact absurd hk (not_le.mpr (hall a (List.mem_cons_self a rest)))
      · rw [hstep, if_neg hk]
        refine ⟨?_, ?_, ?_⟩
        · rcases ih'.1 with hm | he
          · exact Or.inl (List.mem_cons_of_mem a hm)
          · exact Or.inr he
        · intro k hkmem hkle
          rcases List.mem_cons.mp hkmem with rfl | hmem
          · exact absurd hkle hk
          · exact ih'.2.1 k hmem hkle
        · intro hall
          exact ih'.2.2 fun k hk2 => hall k (List.mem_cons_of_mem a hk2)

/-- C9: `getTier` resolves the largest configured tier key that is ≤ the
value — the result is always a configured key, it is ≤ the value whenever
any key is, and it dominates every key ≤ the value — and falls back to the
smallest tier key 2 when the value is below every configured key; in
particular value 3000 resolves to the top 2048 tier and the
non-power-of-two value 3 resolves to tier 2 (total, no failure case). -/
theorem tier_resolution_spec (v : Int) :
    SpaceEffects.getTier v ∈ SpaceEffects.tierKeys ∧
    (∀ k ∈ SpaceEffects.tierKeys, (k : Int) ≤ v →
      (SpaceEffects.getTier v : Int) ≤ v ∧ k ≤ SpaceEffects.getTier v) ∧
    ((∀ k ∈ SpaceEffects.tierKeys, v < (k : Int)) →
      SpaceEffects.getTier v = 2) ∧
    SpaceEffects.getTier 3000 = 2048 ∧ SpaceEffects.getTier 3 = 2 := by
  have h := getTierScan_spec v SpaceEffects.tierKeys (by decide)
  refine ⟨?_, h.2.1, h.2.2, by decide, by decide⟩
  rcases h.1 with hm | he
  · exact hm
  · show SpaceEffects.getTier.getTierScan v SpaceEffects.tierKeys
      ∈ SpaceEffects.tierKeys
    rw [he]
    decide

/-- C9 witness: at value 3000 the resolved tier 2048 is a configured key
that is ≤ 3000 and dominates every configured key ≤ 3000. -/
theorem tier_resolution_spec_witness :
    (2048 : Nat) ∈ SpaceEffects.tierKeys ∧
    ((2048 : Nat) : Int) ≤ 3000 ∧
    (SpaceEffects.getTier 3000 : Int) ≤ 3000 ∧
    2048 ≤ SpaceEffects.getTier 3000 := by
  have h := (tier_resolution_spec 3000).2.1 2048 (by decide) (by decide)
  exact ⟨by decide, by decide, h.1, h.2⟩

/-! ## The terminal sound latch (C10) -/

theorem play_latch_absorbing (st : SoundManager.SMState) (name : String)
    (h : st.terminalPlayed = true) :
    (SoundManager.play st name).1.terminalPlayed = true ∧
    ((name = "win" ∨ name = "gameover") →
      (SoundManager.play st name).2 = false) := by
  unfold SoundManager.play
  split_ifs with h1 h2 h3 h4
  all_goals first
  | exact ⟨h, fun _ => rfl⟩
  | exact ⟨h, fun hn => absurd hn h3⟩
  | exact absurd h h4

theorem play_unfired_latch (st : SoundManager.SMState) (name : String)
    (h : st.terminalPlayed = false)
    (hf : (SoundManager.play st name).2 = false) :
    (SoundManager.play st name).1.terminalPlayed = false := by
  unfold SoundManager.play at hf ⊢
  split_ifs at hf ⊢ with h1 h2 h3 h4
  all_goals first
  | exact h
  | exact Bool.noConfusion hf
  | exact hf.elim

theorem play_terminal_fire_latch (st : SoundManager.SMState) (name : String)
    (hn : name = "win" ∨ name = "gameover")
    (hf : (SoundManager.play st name).2 = true) :
    (SoundManager.play st name).1.terminalPlayed = true := by
  unfold SoundManager.play at hf ⊢
  split_ifs at hf ⊢ with h1 h2 h3 h4
  all_goals first
  | rfl
  | exact Bool.noConfusion hf
  | exact hf.elim
  | exact absurd hn h3

theorem play_nonterminal_state (st : SoundManager.SMState) (name : String)
    (hn : ¬(name = "win" ∨ name = "gameover")) :
    (SoundManager.play st name).1 = st := by
  unfold SoundManager.play
  split_ifs with h1 h2 h3 h4
  all_goals first
  | rfl
  | exact absurd h3 hn

theorem playRun_latched (names : List String) :
    ∀ st : SoundManager.SMState, st.terminalPlayed = true →
    (SoundManager.playRun st names).1.terminalPlayed = true ∧
    "win" ∉ (SoundManager.playRun st names).2 ∧
    "gameover" ∉ (SoundManager.playRun st names).2 := by
  induction names with
  | nil =>
      intro st h
      exact ⟨h, List.not_mem_nil _, List.not_mem_nil _⟩
  | cons n rest ih =>
      intro st h
      have hA := play_latch_absorbing st n h
      have ihr := ih (SoundManager.play st n).1 hA.1
      have hrun : SoundManager.playRun st (n :: rest) =
          ((SoundManager.playRun (SoundManager.play st n).1 rest).1,
           (if (SoundManager.play st n).2 then [n] else []) ++
             (SoundManager.playRun (SoundManager.play st n).1 rest).2) := rfl
      rw [hrun]
      refine ⟨ihr.1, ?_, ?_⟩
      · intro hmem
        rcases List.mem_append.mp hmem with hm | hm
        · by_cases hf : (SoundManager.play st n).2 = true
          · rw [if_pos hf] at hm
            have hn : n = "win" := (List.mem_singleton.mp hm).symm
            rw [hA.2 (Or.inl hn)] at hf
            exact Bool.noConfusion hf
          · rw [if_neg hf] at hm
            exact List.not_mem_nil _ hm
        · exact ihr.2.1 hm
      · intro hmem
        rcases List.mem_append.mp hmem with hm | hm
        · by_cases hf : (SoundManager.play st n).2 = true
          · rw [if_pos hf] at hm
            have hn : n = "gameover" := (List.mem_singleton.mp hm).symm
            rw [hA.2 (Or.inr hn)] at hf
            exact Bool.noConfusion hf
          · rw [if_neg hf] at hm
            exact List.not_mem_nil _ hm
        · exact ihr.2.2 hm

theorem playRun_terminal_once (names : List String) :
    ∀ st : SoundManager.SMState, st.terminalPlayed = false →
    ((SoundManager.playRun st names).2.filter
      fun n => n == "win" || n == "gameover").length ≤ 1 := by
  induction names with
  | nil =>
      intro st h
      exact Nat.zero_le 1
  | cons n rest ih =>
      intro st h
      have hrun : (SoundManager.playRun st (n :: rest)).2 =
          (if (SoundManager.play st n).2 then [n] else []) ++
            (SoundManager.playRun (SoundManager.play st n).1 rest).2 := rfl
      rw [hrun, List.filter_append, List.length_append]
      by_cases hf : (SoundManager.play st n).2 = true
      · rw [if_pos hf]
        by_cases hterm : (n == "win" || n == "gameover") = true
        · have hnp : n = "win" ∨ n = "gameover" := by simpa using hterm
          have hlatch := play_terminal_fire_latch st n hnp hf
          have hnone := playRun_latched rest (SoundManager.play st n).1 hlatch
          have hfil : ((SoundManager.playRun (SoundManager.play st n).1
              rest).2.filter fun x => x == "win" || x == "gameover") = [] := by
            rw [List.filter_eq_nil_iff]
            intro a ha hpa
            have hpa' : a = "win" ∨ a = "gameover" := by simpa using hpa
            rcases hpa' with rfl | rfl
            · exact hnone.2.1 ha
            · exact hnone.2.2 ha
          rw [hfil]
          have hle := List.length_filter_le
            (fun x => x == "win" || x == "gameover") [n]
          have hone : ([n] : List String).length = 1 := rfl
          simp only [List.length_nil]
          omega
        · have hfalse : (n == "win" || n == "gameover") = false := by
            revert hterm
            cases (n == "win" || n == "gameover") <;> simp
          have hfn : (List.filter (fun x => x == "win" || x == "gameover") [n])
              = [] := by
            simp [List.filter_singleton, hfalse]
          have hn : ¬(n = "win" ∨ n = "gameover") := by
            intro hcase
            rcases hcase with rfl | rfl
            · exact absurd hfalse (by decide)
            · exact absurd hfalse (by decide)
          have hstate := play_nonterminal_state st n hn
          have hr := ih (SoundManager.play st n).1 (by rw [hstate]; exact h)
          rw [hfn]
          simp only [List.length_nil]
          omega
      · rw [if_neg hf]
        have hf' : (SoundManager.play st n).2 = false := by
          revert hf
          cases (SoundManager.play st n).2 <;> simp
        have hr := ih (SoundManager.play st n).1 (play_unfired_latch st n h hf')
        simp only [List.filter_nil, List.length_nil]
        omega

/-- C10: a merge producing a 2048 tile sets `won` and emits the win sound;
an unmuted, unlatched manager fires `win`/`gameover` and sets the one-shot
latch; once latched, no run of `play` calls ever fires `win` or `gameover`
again; from an unlatched start, at most one terminal sound fires across any
run; the latch survives every `play` call and is cleared by
`resetTerminal`, after which a terminal sound can fire again; and `restart`
is the caller of that reset. -/
theorem terminal_sound_latch (s : GameState) (d pick : Nat) (isTwo : Bool)
    (hd : d < 4) (hsz : s.grid.size = s.size)
    (hpc : s.grid.posConsistent = true) :
    (∀ rec ∈ (move s d pick isTwo).merges, rec.product.value = 2048 →
      (move s d pick isTwo).state.won = true ∧
      Effect.sound "win" ∈ (move s d pick isTwo).effects) ∧
    (∀ st : SoundManager.SMState, st.muted = false →
      st.terminalPlayed = false →
      (SoundManager.play st "win").2 = true ∧
      (SoundManager.play st "win").1.terminalPlayed = true ∧
      (SoundManager.play st "gameover").2 = true) ∧
    (∀ (st : SoundManager.SMState) (names : List String),
      st.terminalPlayed = true →
      "win" ∉ (SoundManager.playRun st names).2 ∧
      "gameover" ∉ (SoundManager.playRun st names).2) ∧
    (∀ (st : SoundManager.SMState) (names : List String),
      st.terminalPlayed = false →
      ((SoundManager.playRun st names).2.filter
        fun n => n == "win" || n == "gameover").length ≤ 1) ∧
    (∀ (st : SoundManager.SMState) (name : String),
      st.terminalPlayed = true →
      (SoundManager.play st name).1.terminalPlayed = true) ∧
    (∀ st : SoundManager.SMState,
      (SoundManager.resetTerminal st).terminalPlayed = false ∧
      (st.muted = false →
        (SoundManager.play (SoundManager.resetTerminal st) "win").2 = true)) ∧
    Effect.resetTerminal ∈ (restart s 0 true 0 true).2 := by
  have hplay : ∀ st : SoundManager.SMState, st.muted = false →
      st.terminalPlayed = false →
      (SoundManager.play st "win").2 = true ∧
      (SoundManager.play st "win").1.terminalPlayed = true ∧
      (SoundManager.play st "gameover").2 = true := by
    intro st hmut hlatch
    refine ⟨?_, ?_, ?_⟩ <;>
    · unfold SoundManager.play
      split_ifs with h1 h2 h3 h4
      all_goals first
      | rfl
      | (rw [h1] at hmut; exact Bool.noConfusion hmut)
      | (rw [h4] at hlatch; exact Bool.noConfusion hlatch)
      | exact absurd (by decide) h2
      | exact absurd (Or.inl rfl) h3
      | exact absurd (Or.inr rfl) h3
  refine ⟨?_, hplay,
    fun st names hlatch => (playRun_latched names st hlatch).2,
    fun st names hlatch => playRun_terminal_once names st hlatch,
    fun st name hlatch => (play_latch_absorbing st name hlatch).1,
    fun st => ⟨rfl, fun hmut => (hplay ⟨st.muted, false⟩ hmut rfl).1⟩,
    by simp [restart]⟩
  rw [move_spec]
  obtain ⟨f1, f2, f3, f4, f5, f6⟩ :=
    moveFold_facts s d hd hsz ((pc_iff _).mp hpc)
  by_cases hterm : isTerminated s = true
  · rw [if_pos hterm]
    intro rec hrec
    exact absurd hrec (List.not_mem_nil rec)
  · rw [if_neg hterm]
    by_cases hm2 : (moveFold s d).moved = true
    · rw [if_pos hm2]
      intro rec hrec h2048
      obtain ⟨hwon, hwin⟩ := (f5 rec hrec).2.2.2.2 h2048
      exact ⟨hwon, List.mem_append_left _ (List.mem_append_left _
        (List.mem_append_left _ (List.mem_append_left _ hwin)))⟩
    · rw [if_neg hm2]
      intro rec hrec
      have hmf : (moveFold s d).moved = false := by
        revert hm2
        cases (moveFold s d).moved <;> simp
      rw [f4 hmf] at hrec
      exact absurd hrec (List.not_mem_nil rec)

/-- C10 witness: a fresh unmuted manager fires the win sound and latches,
and a concrete `restart` emits the latch reset. -/
theorem terminal_sound_latch_witness :
    (SoundManager.play ⟨false, false⟩ "win").2 = true ∧
    (SoundManager.play ⟨false, false⟩ "win").1.terminalPlayed = true ∧
    Effect.resetTerminal ∈
      (restart (baseState (rowGrid [some 2, none, none, none])) 0 true 0
        true).2 := by
  have h := terminal_sound_latch (baseState (rowGrid [some 2, none, none, none]))
    0 0 true (by decide) (by decide) (by decide)
  exact ⟨(h.2.1 ⟨false, false⟩ rfl rfl).1, (h.2.1 ⟨false, false⟩ rfl rfl).2.1,
    h.2.2.2.2.2.2⟩

end Game2048
